import Mathlib

/-!
Verification of the axe-playwright accessibility adapter.

The development shallowly embeds the Python package (`base.py`,
`async_playwright.py`): Python values become the inductive `PyVal`
(dicts are association lists in insertion order, as Python dicts
preserve insertion order), fallible operations return
`Except PyErr`, and the two stdlib facilities the code leans on —
`repr`/`str` formatting and `json.dumps(..., indent=4)` /
`json.loads` — are modelled as executable Lean functions.
-/

set_option maxHeartbeats 1000000

namespace AxePlaywright

/-- Python values handled by the library: `None`, booleans, integers,
strings, lists and string-keyed dictionaries. -/
inductive PyVal where
  | none : PyVal
  | bool : Bool → PyVal
  | int : Int → PyVal
  | str : String → PyVal
  | list : List PyVal → PyVal
  | dict : List (String × PyVal) → PyVal

/-- A Python dict with string keys, in insertion order. -/
abbrev PyDict := List (String × PyVal)

/-- Python exceptions raised by the translated code paths. -/
inductive PyErr where
  | keyError (key : String)
  | typeError
  | attributeError
  | valueError (msg : String)
deriving Repr, DecidableEq

/-- `d[k]` lookup on a Python dict: the value of the first entry with key
`k` (Python dicts have unique keys, so the first entry is the entry). -/
def lookupKey : PyDict → String → Option PyVal
  | [], _ => Option.none
  | kv :: rest, k => if kv.1 = k then some kv.2 else lookupKey rest k

/-- `k in d` membership test on a Python dict. -/
def hasKey (d : PyDict) (k : String) : Bool := d.any (fun kv => kv.1 == k)

/-- `del d[k]`: removes the entry with key `k`, raising `KeyError` when the
key is absent. -/
def delKey (d : PyDict) (k : String) : Except PyErr PyDict :=
  if hasKey d k then .ok (d.filter (fun kv => !(kv.1 == k))) else .error (.keyError k)

/-- `d[k]` subscripting on an arbitrary value with a string key: only dicts
support it (string-key subscription of a list, string or number is a
`TypeError`). -/
def pySubscript (v : PyVal) (k : String) : Except PyErr PyVal :=
  match v with
  | .dict d =>
    match lookupKey d k with
    | some x => .ok x
    | Option.none => .error (.keyError k)
  | _ => .error PyErr.typeError

/-- Python `len`: defined for strings, lists and dicts; `TypeError`
otherwise. -/
def pyLen : PyVal → Except PyErr Nat
  | .str s => .ok s.length
  | .list xs => .ok xs.length
  | .dict kvs => .ok kvs.length
  | _ => .error PyErr.typeError

/-- Python iteration: a string yields its characters as 1-character
strings, a list its elements, a dict its keys; other values are not
iterable. -/
def pyIter : PyVal → Except PyErr (List PyVal)
  | .str s => .ok (s.data.map (fun c => .str (String.mk [c])))
  | .list xs => .ok xs
  | .dict kvs => .ok (kvs.map (fun kv => .str kv.1))
  | _ => .error PyErr.typeError

/-- Python truthiness: `None`, `False`, `0`, and empty strings, lists and
dicts are falsy; everything else is truthy. -/
def pyTruthy : PyVal → Bool
  | .none => false
  | .bool b => b
  | .int n => n != 0
  | .str s => !s.isEmpty
  | .list xs => !xs.isEmpty
  | .dict kvs => !kvs.isEmpty

/-- `sep.join(parts)` over an already-extracted list of strings. -/
def strJoinList (sep : String) : List String → String
  | [] => ""
  | [a] => a
  | a :: rest => a ++ sep ++ strJoinList sep rest

/-- Lower-case hex digit character for `d < 16`. -/
def hexDigitCh (d : Nat) : Char :=
  if d < 10 then Char.ofNat (48 + d) else Char.ofNat (87 + d)

/-- Two-digit lower-case hex rendering (used by `repr`'s `\xNN` escapes). -/
def toHex2 (n : Nat) : List Char := [hexDigitCh (n / 16 % 16), hexDigitCh (n % 16)]

/-- Four-digit lower-case hex rendering (used by JSON `\uNNNN` escapes). -/
def toHex4 (n : Nat) : List Char :=
  [hexDigitCh (n / 4096 % 16), hexDigitCh (n / 256 % 16),
    hexDigitCh (n / 16 % 16), hexDigitCh (n % 16)]

/-- Decimal digit character for `d < 10`. -/
def digitCh (d : Nat) : Char := Char.ofNat (48 + d)

/-- Decimal digits of `n`, most significant first, as characters
(`"0"` for zero): the canonical decimal rendering of a natural number. -/
def natChars (n : Nat) : List Char :=
  if n = 0 then ['0'] else (Nat.digits 10 n).reverse.map digitCh

/-- Canonical decimal rendering of a Python integer. -/
def intChars : Int → List Char
  | .ofNat n => natChars n
  | .negSucc m => '-' :: natChars (m + 1)

/-- One escaped character of a Python single-string `repr`, with `q` the
quote character chosen for the string.  Models CPython's rule: backslash,
the active quote and the common control characters get short escapes,
other control characters get `\xNN`; printable characters stand for
themselves (printability of non-ASCII characters is not modelled: they
are kept verbatim, which matches CPython for all printable text). -/
def pyReprEscChar (q : Char) (c : Char) : List Char :=
  if c = '\\' then ['\\', '\\']
  else if c = q then ['\\', q]
  else if c = '\n' then ['\\', 'n']
  else if c = '\r' then ['\\', 'r']
  else if c = '\t' then ['\\', 't']
  else if c.toNat < 0x20 ∨ c.toNat = 0x7f then '\\' :: 'x' :: toHex2 c.toNat
  else [c]

/-- Python `repr` of a string: single quotes by default, double quotes
when the text contains a single quote but no double quote. -/
def pyReprStr (s : String) : String :=
  let q := if s.data.contains '\'' ∧ ¬ s.data.contains '"' then '"' else '\''
  String.mk (q :: s.data.flatMap (pyReprEscChar q) ++ [q])

mutual
/-- Python `repr` of a value. -/
def pyRepr : PyVal → String
  | .none => "None"
  | .bool true => "True"
  | .bool false => "False"
  | .int n => String.mk (intChars n)
  | .str s => pyReprStr s
  | .list xs => "[" ++ strJoinList ", " (pyReprList xs) ++ "]"
  | .dict kvs => "\x7b" ++ strJoinList ", " (pyReprPairs kvs) ++ "\x7d"

/-- `repr` of each element of a list. -/
def pyReprList : List PyVal → List String
  | [] => []
  | x :: xs => pyRepr x :: pyReprList xs

/-- `repr` of each `key: value` entry of a dict. -/
def pyReprPairs : List (String × PyVal) → List String
  | [] => []
  | kv :: rest => (pyReprStr kv.1 ++ ": " ++ pyRepr kv.2) :: pyReprPairs rest
end

/-- Python `str` of a value: a string is itself, anything else renders as
its `repr` (which is exact for the types in this model). -/
def pyStr : PyVal → String
  | .str s => s
  | v => pyRepr v

/-- `AxeBase._format_script_args` (base.py lines 26–40): appends
`repr(context)` when `context` is truthy, then `str(options)` when
`options` is truthy, and joins the fragments with `","`. -/
def format_script_args (context : PyVal) (options : PyVal) : String :=
  let argsList : List String := []
  let argsList := if pyTruthy context then argsList ++ [pyRepr context] else argsList
  let argsList := if pyTruthy options then argsList ++ [pyStr options] else argsList
  strJoinList "," argsList

/-- `Axe.run`'s invocation expression (async_playwright.py lines 35–37):
`"axe.run(%s).then(results => {return results;})" % args_str`. -/
def runCommand (context : PyVal) (options : PyVal) : String :=
  "axe.run(" ++ format_script_args context options ++ ").then(results => \x7breturn results;\x7d)"

/-! ### `json.dumps(..., indent=4)`

`save_to_file` serializes via `json.dumps(response, indent=4)`.  With an
indent, CPython's encoder uses separators `(',', ': ')`, opens every
non-empty container with a newline, indents each element by
`indent * level` spaces, and closes with a newline and the enclosing
level's indentation; empty containers render as `[]` / `{}`; with the
default `ensure_ascii=True` every non-ASCII character is `\uNNNN`-escaped
(astral code points as a surrogate pair). -/

/-- One character of a JSON string literal under `ensure_ascii`. -/
def jsonEscChar (c : Char) : List Char :=
  if c = '"' then ['\\', '"']
  else if c = '\\' then ['\\', '\\']
  else if c = '\x08' then ['\\', 'b']
  else if c = '\x0c' then ['\\', 'f']
  else if c = '\n' then ['\\', 'n']
  else if c = '\r' then ['\\', 'r']
  else if c = '\t' then ['\\', 't']
  else if 0x20 ≤ c.toNat ∧ c.toNat ≤ 0x7e then [c]
  else if c.toNat < 0x10000 then '\\' :: 'u' :: toHex4 c.toNat
  else
    ('\\' :: 'u' :: toHex4 (0xd800 + (c.toNat - 0x10000) / 0x400)) ++
      ('\\' :: 'u' :: toHex4 (0xdc00 + (c.toNat - 0x10000) % 0x400))

/-- A JSON string literal, quotes included. -/
def jsonStrLit (s : String) : List Char :=
  '"' :: s.data.flatMap jsonEscChar ++ ['"']

/-- The `indent * level` spaces preceding an element. -/
def indentChars (indent lvl : Nat) : List Char := List.replicate (indent * lvl) ' '

mutual
/-- A value as serialized by `json.dumps` with the given indent, at
nesting level `lvl`. -/
def dumpVal (indent lvl : Nat) : PyVal → List Char
  | .none => 'n' :: 'u' :: 'l' :: 'l' :: []
  | .bool true => 't' :: 'r' :: 'u' :: 'e' :: []
  | .bool false => 'f' :: 'a' :: 'l' :: 's' :: 'e' :: []
  | .int n => intChars n
  | .str s => jsonStrLit s
  | .list [] => ['[', ']']
  | .list (x :: xs) =>
      '[' :: '\n' :: indentChars indent (lvl + 1) ++ dumpVal indent (lvl + 1) x ++
        dumpItems indent (lvl + 1) xs ++ '\n' :: indentChars indent lvl ++ [']']
  | .dict [] => ['\x7b', '\x7d']
  | .dict (kv :: kvs) =>
      '\x7b' :: '\n' :: indentChars indent (lvl + 1) ++ dumpPair indent (lvl + 1) kv ++
        dumpPairs indent (lvl + 1) kvs ++ '\n' :: indentChars indent lvl ++ ['\x7d']

/-- The `",\n<indent>"`-separated continuation of a list body. -/
def dumpItems (indent lvl : Nat) : List PyVal → List Char
  | [] => []
  | x :: xs =>
      ',' :: '\n' :: indentChars indent lvl ++ dumpVal indent lvl x ++ dumpItems indent lvl xs

/-- One `"key": value` dict entry. -/
def dumpPair (indent lvl : Nat) : String × PyVal → List Char
  | (k, v) => jsonStrLit k ++ ':' :: ' ' :: dumpVal indent lvl v

/-- The `",\n<indent>"`-separated continuation of a dict body. -/
def dumpPairs (indent lvl : Nat) : List (String × PyVal) → List Char
  | [] => []
  | kv :: kvs =>
      ',' :: '\n' :: indentChars indent lvl ++ dumpPair indent lvl kv ++ dumpPairs indent lvl kvs
end

/-- `json.dumps(v, indent=indent)`. -/
def jsonDumps (indent : Nat) (v : PyVal) : String := String.mk (dumpVal indent 0 v)

/-! ### `json.loads`

A recursive-descent reader of the JSON grammar restricted to what this
model can represent (no floats), used to state the save/parse round-trip.
Recursion over nested containers is bounded by an explicit fuel; the
top-level entry point supplies the input length, which is always
sufficient because every recursive descent first consumes at least one
character. -/

/-- JSON insignificant whitespace. -/
def isWsChar (c : Char) : Bool := c = ' ' || c = '\n' || c = '\t' || c = '\r'

/-- Drop leading JSON whitespace. -/
def skipWs : List Char → List Char
  | [] => []
  | c :: cs => if isWsChar c then skipWs cs else c :: cs

/-- Value of one hex digit. -/
def hexVal (c : Char) : Option Nat :=
  if '0' ≤ c ∧ c ≤ '9' then some (c.toNat - 48)
  else if 'a' ≤ c ∧ c ≤ 'f' then some (c.toNat - 87)
  else if 'A' ≤ c ∧ c ≤ 'F' then some (c.toNat - 55)
  else Option.none

/-- Value of a four-hex-digit group. -/
def hex4 (c1 c2 c3 c4 : Char) : Option Nat := do
  let h1 ← hexVal c1
  let h2 ← hexVal c2
  let h3 ← hexVal c3
  let h4 ← hexVal c4
  pure (((h1 * 16 + h2) * 16 + h3) * 16 + h4)

/-- Short escapes accepted after a backslash (besides `\uNNNN`). -/
def escCh (e : Char) : Option Char :=
  if e = '"' then some '"'
  else if e = '\\' then some '\\'
  else if e = '/' then some '/'
  else if e = 'b' then some '\x08'
  else if e = 'f' then some '\x0c'
  else if e = 'n' then some '\n'
  else if e = 'r' then some '\r'
  else if e = 't' then some '\t'
  else Option.none

mutual
/-- Body of a string literal after the opening quote: the decoded
characters and the input following the closing quote.  Unescaped control
characters are rejected (strict mode). -/
def parseStrBody : List Char → Option (List Char × List Char)
  | [] => Option.none
  | c :: rest =>
    if c = '"' then some ([], rest)
    else if c = '\\' then parseEsc rest
    else if c.toNat < 0x20 then Option.none
    else (parseStrBody rest).map (fun p => (c :: p.1, p.2))
termination_by cs => 2 * cs.length

/-- After a backslash: a short escape or a `\uNNNN` group. -/
def parseEsc : List Char → Option (List Char × List Char)
  | [] => Option.none
  | e :: rest2 =>
    if e = 'u' then parseU rest2
    else
      match escCh e with
      | some ec => (parseStrBody rest2).map (fun p => (ec :: p.1, p.2))
      | Option.none => Option.none
termination_by cs => 2 * cs.length + 1

/-- After `\u`: four hex digits; a high surrogate requires a following
low-surrogate escape. -/
def parseU : List Char → Option (List Char × List Char)
  | c1 :: c2 :: c3 :: c4 :: rest3 =>
    (match hex4 c1 c2 c3 c4 with
    | Option.none => Option.none
    | some n =>
      if 0xd800 ≤ n ∧ n < 0xdc00 then parseLowSur n rest3
      else (parseStrBody rest3).map (fun p => (Char.ofNat n :: p.1, p.2)))
  | _ => Option.none
termination_by cs => 2 * cs.length + 1

/-- The mandatory low-surrogate escape after a high surrogate `n`. -/
def parseLowSur (n : Nat) : List Char → Option (List Char × List Char)
  | b1 :: b2 :: d1 :: d2 :: d3 :: d4 :: rest4 =>
    if b1 = '\\' ∧ b2 = 'u' then
      match hex4 d1 d2 d3 d4 with
      | Option.none => Option.none
      | some m =>
        if 0xdc00 ≤ m ∧ m < 0xe000 then
          (parseStrBody rest4).map
            (fun p => (Char.ofNat (0x10000 + (n - 0xd800) * 0x400 + (m - 0xdc00)) :: p.1, p.2))
        else Option.none
    else Option.none
  | _ => Option.none
termination_by cs => 2 * cs.length + 1
end

/-- Longest digit run, accumulating its decimal value. -/
def parseDigitsAux : List Char → Nat → Nat × List Char
  | [], acc => (acc, [])
  | c :: rest, acc =>
    if c.isDigit then parseDigitsAux rest (acc * 10 + (c.toNat - 48)) else (acc, c :: rest)

/-- A non-empty digit run and its decimal value. -/
def parseNum : List Char → Option (Nat × List Char)
  | [] => Option.none
  | c :: rest => if c.isDigit then some (parseDigitsAux rest (c.toNat - 48)) else Option.none

/-- The tail of the literal `null`. -/
def parseLitNull : List Char → Option (PyVal × List Char)
  | e1 :: e2 :: e3 :: r =>
    if e1 = 'u' ∧ e2 = 'l' ∧ e3 = 'l' then some (.none, r) else Option.none
  | _ => Option.none

/-- The tail of the literal `true`. -/
def parseLitTrue : List Char → Option (PyVal × List Char)
  | e1 :: e2 :: e3 :: r =>
    if e1 = 'r' ∧ e2 = 'u' ∧ e3 = 'e' then some (.bool true, r) else Option.none
  | _ => Option.none

/-- The tail of the literal `false`. -/
def parseLitFalse : List Char → Option (PyVal × List Char)
  | e1 :: e2 :: e3 :: e4 :: r =>
    if e1 = 'a' ∧ e2 = 'l' ∧ e3 = 's' ∧ e4 = 'e' then some (.bool false, r) else Option.none
  | _ => Option.none

/-- A number after a leading minus sign. -/
def parseNegNum (rest : List Char) : Option (PyVal × List Char) :=
  match parseNum rest with
  | some (n, r) => some (.int (-(n : Int)), r)
  | Option.none => Option.none

/-- A number starting with digit `c`. -/
def parsePosNum (c : Char) (rest : List Char) : Option (PyVal × List Char) :=
  match parseNum (c :: rest) with
  | some (n, r) => some (.int (n : Int), r)
  | Option.none => Option.none

mutual
/-- One JSON value, leading whitespace allowed. -/
def parseVal : Nat → List Char → Option (PyVal × List Char)
  | 0, _ => Option.none
  | fuel + 1, cs =>
    match skipWs cs with
    | [] => Option.none
    | c :: rest =>
      if c = 'n' then parseLitNull rest
      else if c = 't' then parseLitTrue rest
      else if c = 'f' then parseLitFalse rest
      else if c = '"' then (parseStrBody rest).map (fun p => (.str (String.mk p.1), p.2))
      else if c = '[' then parseListBody fuel rest
      else if c = '\x7b' then parseDictBody fuel rest
      else if c = '-' then parseNegNum rest
      else if c.isDigit then parsePosNum c rest
      else Option.none
termination_by fuel _ => 4 * fuel

/-- After `[`: an empty list or the elements. -/
def parseListBody (fuel : Nat) (rest : List Char) : Option (PyVal × List Char) :=
  match skipWs rest with
  | [] => Option.none
  | d :: rest2 =>
    if d = ']' then some (.list [], rest2)
    else do
      let (v, rest3) ← parseVal fuel (d :: rest2)
      let (vs, rest4) ← parseListTail fuel rest3
      pure (.list (v :: vs), rest4)
termination_by 4 * fuel + 3

/-- After one list element: `, element …` repeated until `]`. -/
def parseListTail : Nat → List Char → Option (List PyVal × List Char)
  | 0, _ => Option.none
  | fuel + 1, cs =>
    match skipWs cs with
    | [] => Option.none
    | d :: rest =>
      if d = ']' then some ([], rest)
      else if d = ',' then do
        let (v, rest2) ← parseVal fuel rest
        let (vs, rest3) ← parseListTail fuel rest2
        pure (v :: vs, rest3)
      else Option.none
termination_by fuel _ => 4 * fuel + 2

/-- After the opening brace: an empty dict or the entries. -/
def parseDictBody (fuel : Nat) (rest : List Char) : Option (PyVal × List Char) :=
  match skipWs rest with
  | [] => Option.none
  | d :: rest2 =>
    if d = '\x7d' then some (.dict [], rest2)
    else do
      let (kv, rest3) ← parsePairX fuel (d :: rest2)
      let (kvs, rest4) ← parseDictTail fuel rest3
      pure (.dict (kv :: kvs), rest4)
termination_by 4 * fuel + 3

/-- One `"key": value` dict entry. -/
def parsePairX : Nat → List Char → Option ((String × PyVal) × List Char)
  | 0, _ => Option.none
  | fuel + 1, cs =>
    match skipWs cs with
    | [] => Option.none
    | d :: rest =>
      if d = '"' then do
        let (kcs, rest2) ← parseStrBody rest
        parsePairColon fuel kcs rest2
      else Option.none
termination_by fuel _ => 4 * fuel + 1

/-- After a dict key: the `:` separator and the value. -/
def parsePairColon (fuel : Nat) (kcs : List Char) (rest2 : List Char) :
    Option ((String × PyVal) × List Char) :=
  match skipWs rest2 with
  | [] => Option.none
  | e :: rest3 =>
    if e = ':' then do
      let (v, rest4) ← parseVal fuel rest3
      pure ((String.mk kcs, v), rest4)
    else Option.none
termination_by 4 * fuel + 4

/-- After one dict entry: `, entry …` repeated until the closing brace. -/
def parseDictTail : Nat → List Char → Option (List (String × PyVal) × List Char)
  | 0, _ => Option.none
  | fuel + 1, cs =>
    match skipWs cs with
    | [] => Option.none
    | d :: rest =>
      if d = '\x7d' then some ([], rest)
      else if d = ',' then do
        let (kv, rest2) ← parsePairX fuel rest
        let (kvs, rest3) ← parseDictTail fuel rest2
        pure (kv :: kvs, rest3)
      else Option.none
termination_by fuel _ => 4 * fuel + 2
end

/-- `json.loads`: one value, then only trailing whitespace. -/
def jsonLoads (s : String) : Option PyVal :=
  match parseVal s.data.length s.data with
  | some (v, rest) => if skipWs rest = [] then some v else Option.none
  | Option.none => Option.none

mutual
/-- Fuel sufficient for `parseVal` on a serialization of `v` (each level
of nesting consumes one unit). -/
def needV : PyVal → Nat
  | .none => 1
  | .bool _ => 1
  | .int _ => 1
  | .str _ => 1
  | .list [] => 1
  | .list (x :: xs) => 1 + needV x + needTail xs
  | .dict [] => 1
  | .dict (kv :: kvs) => 1 + (1 + needV kv.2) + needPairs kvs

/-- Fuel sufficient for `parseListTail` on the remaining items. -/
def needTail : List PyVal → Nat
  | [] => 1
  | x :: xs => 1 + needV x + needTail xs

/-- Fuel sufficient for `parseDictTail` on the remaining entries. -/
def needPairs : List (String × PyVal) → Nat
  | [] => 1
  | kv :: kvs => 1 + (1 + needV kv.2) + needPairs kvs
end

/-- The input does not begin with a decimal digit (so a digit run ending
right before it is maximal). -/
def notDigitStart : List Char → Prop
  | [] => True
  | c :: _ => c.isDigit = false

/-! ### `AxeResults.save_to_file` (base.py lines 113–129)

The method copies `self.response`, deletes the three non-violation
category keys from the copy when `violations_only` is set, and writes the
JSON serialization (`indent=4`).  The pure form returns the text written
to the file; the heap form below additionally tracks the dict objects so
that the aliasing between `self.response` and its copy is explicit. -/

/-- The text `save_to_file` writes, or the exception it raises. -/
def save_to_file (response : PyDict) (violationsOnly : Bool) : Except PyErr String := do
  let resp := response
  let resp ←
    if violationsOnly then do
      let r1 ← delKey resp "inapplicable"
      let r2 ← delKey r1 "incomplete"
      delKey r2 "passes"
    else pure resp
  pure (jsonDumps 4 (.dict resp))

/-- A store of top-level dict objects; a dict-valued variable is an index
into the store (the values held in entries are shared immutable trees,
matching the shallowness of `dict.copy`). -/
abbrev Heap := List PyDict

/-- Dereference. -/
def heapGet (h : Heap) (r : Nat) : PyDict := h.getD r []

/-- `d.copy()`: allocate a fresh object with the same entries. -/
def heapCopy (h : Heap) (r : Nat) : Heap × Nat := (h ++ [heapGet h r], h.length)

/-- `del h[r][k]`: mutates the object at `r` in place, raising `KeyError`
when the key is absent (in which case the store is untouched). -/
def heapDel (h : Heap) (r : Nat) (k : String) : Heap × Option PyErr :=
  let d := heapGet h r
  if hasKey d k then (h.set r (d.filter (fun kv => !(kv.1 == k))), Option.none)
  else (h, some (.keyError k))

/-- `save_to_file` with the object store explicit: `selfRef` is the object
held by `self.response`; the result is the post-state of the store
together with the written text or the raised exception. -/
def save_to_file_heap (h : Heap) (selfRef : Nat) (violationsOnly : Bool) :
    Heap × Except PyErr String :=
  let (h1, resp) := heapCopy h selfRef
  if violationsOnly then
    match heapDel h1 resp "inapplicable" with
    | (h2, some e) => (h2, .error e)
    | (h2, Option.none) =>
      match heapDel h2 resp "incomplete" with
      | (h3, some e) => (h3, .error e)
      | (h3, Option.none) =>
        match heapDel h3 resp "passes" with
        | (h4, some e) => (h4, .error e)
        | (h4, Option.none) => (h4, .ok (jsonDumps 4 (.dict (heapGet h4 resp))))
  else (h1, .ok (jsonDumps 4 (.dict (heapGet h1 resp))))

/-! ### `AxeResults.violations_count` and `generate_snapshot`
(base.py lines 64–80) -/

/-- `violations_count`: `len(self.response["violations"])`. -/
def violations_count (response : PyDict) : Except PyErr Nat := do
  match lookupKey response "violations" with
  | some v => pyLen v
  | Option.none => .error (.keyError "violations")

/-- One snapshot line: `f"{v['id']} ({v['impact']}) : {len(v['nodes'])}"`. -/
def snapshotLine (v : PyVal) : Except PyErr String := do
  let idv ← pySubscript v "id"
  let impactv ← pySubscript v "impact"
  let nodesv ← pySubscript v "nodes"
  let n ← pyLen nodesv
  pure (pyStr idv ++ " (" ++ pyStr impactv ++ ") : " ++ toString n)

/-- `generate_snapshot`: one line per violation, joined by `"\n"`. -/
def generate_snapshot (response : PyDict) : Except PyErr String := do
  let violationsV ←
    match lookupKey response "violations" with
    | some v => pure v
    | Option.none => .error (.keyError "violations")
  let vs ← pyIter violationsV
  let lines ← vs.mapM snapshotLine
  pure (strJoinList "\n" lines)

/-! ### `string.Template.substitute`

`__violation_report` renders each violation through
`Template(template_text).substitute(violation, elements=nodes_str)`.
The default template pattern substitutes `$name` and `${name}` (ASCII
identifiers), renders `$$` as `$`, raises `KeyError` for a name bound
neither by the keyword argument `elements` nor by the violation dict, and
`ValueError` for a lone or ill-formed placeholder.  Values are converted
with `str`.  Recursion is bounded by fuel; the entry point supplies more
fuel than the template length, which is sufficient because every step
consumes at least one input character. -/

/-- Length of the leading run of identifier characters. -/
def identLen : List Char → Nat
  | [] => 0
  | c :: rest => if c = '_' || c.isAlpha || c.isDigit then identLen rest + 1 else 0

/-- Identifier start character (`[_a-zA-Z]`). -/
def isIdentStart (c : Char) : Bool := c = '_' || c.isAlpha

/-- Placeholder resolution: the `elements` keyword argument shadows the
violation's own fields. -/
def substLookup (vd : PyDict) (elements : String) (name : String) : Except PyErr String :=
  if name = "elements" then .ok elements
  else
    match lookupKey vd name with
    | some v => .ok (pyStr v)
    | Option.none => .error (.keyError name)

/-- Fueled substitution over the template text. -/
def templateSubAux (vd : PyDict) (elements : String) : Nat → List Char → Except PyErr (List Char)
  | 0, _ => .error (.valueError "substitution fuel exhausted")
  | _ + 1, [] => .ok []
  | fuel + 1, c :: rest =>
    if c = '$' then
      match rest with
      | '$' :: rest2 => (fun t => '$' :: t) <$> templateSubAux vd elements fuel rest2
      | '\x7b' :: rest2 =>
        match rest2 with
        | [] => .error (.valueError "Invalid placeholder in string")
        | d :: _ =>
          if isIdentStart d then
            match rest2.drop (identLen rest2) with
            | '\x7d' :: rest3 => do
                let s ← substLookup vd elements (String.mk (rest2.take (identLen rest2)))
                let t ← templateSubAux vd elements fuel rest3
                pure (s.data ++ t)
            | _ => .error (.valueError "Invalid placeholder in string")
          else .error (.valueError "Invalid placeholder in string")
      | c2 :: rest2 =>
        if isIdentStart c2 then do
          let s ← substLookup vd elements (String.mk (c2 :: rest2.take (identLen rest2)))
          let t ← templateSubAux vd elements fuel (rest2.drop (identLen rest2))
          pure (s.data ++ t)
        else .error (.valueError "Invalid placeholder in string")
      | [] => .error (.valueError "Invalid placeholder in string")
    else (fun t => c :: t) <$> templateSubAux vd elements fuel rest

/-- `Template(template).substitute(vd, elements=elements)`. -/
def templateSubstitute (template : String) (vd : PyDict) (elements : String) :
    Except PyErr String :=
  (fun l => String.mk l) <$> templateSubAux vd elements (template.data.length + 1) template.data

/-! ### `AxeResults.__violation_report` (base.py lines 82–92) -/

/-- `s.replace("\n", "")`. -/
def stripNewlines (s : String) : String := String.mk (s.data.filter (fun c => c ≠ '\n'))

/-- `node.get("html").replace("\n", "")`: `dict.get` defaults to `None`,
and only a string has this `replace`; on `None` (or a non-string) the
attribute access raises. -/
def getHtmlSnippet : Option PyVal → Except PyErr String
  | some (.str s) => .ok (stripNewlines s)
  | _ => .error PyErr.attributeError

/-- `", ".join(x)`: `x` must be iterable and its items strings. -/
def joinStrings (sep : String) (v : PyVal) : Except PyErr String := do
  let items ← pyIter v
  let strs ← items.mapM (fun x =>
    match x with
    | PyVal.str s => Except.ok s
    | _ => Except.error PyErr.typeError)
  pure (strJoinList sep strs)

/-- Python `+` on the values involved here: sequence concatenation. -/
def pyAdd : PyVal → PyVal → Except PyErr PyVal
  | .list a, .list b => .ok (.list (a ++ b))
  | .str a, .str b => .ok (.str (a ++ b))
  | _, _ => .error PyErr.typeError

/-- Concatenation of a list of strings (string accumulation through a
Python `+=` loop). -/
def concatStrings : List String → String
  | [] => ""
  | s :: rest => s ++ concatStrings rest

/-- `"\n\t\t* " + item["message"]`. -/
def msgLine (item : PyVal) : Except PyErr String := do
  let m ← pySubscript item "message"
  match m with
  | .str s => pure ("\n\t\t* " ++ s)
  | _ => .error PyErr.typeError

/-- One iteration of the node loop of `__violation_report`, for the node
numbered `num` (enumeration starts at 1). -/
def nodeBlock (num : Nat) (node : PyVal) : Except PyErr String :=
  match node with
  | .dict nd => do
      let targetV ←
        match lookupKey nd "target" with
        | some v => pure v
        | Option.none => Except.error (PyErr.keyError "target")
      let targets ← joinStrings ", " targetV
      let snippet ← getHtmlSnippet (lookupKey nd "html")
      let c1 ← pyAdd ((lookupKey nd "all").getD (.list [])) ((lookupKey nd "any").getD (.list []))
      let c2 ← pyAdd c1 ((lookupKey nd "none").getD (.list []))
      let items ← pyIter c2
      let msgs ← items.mapM msgLine
      pure ("\n\n\t" ++ toString num ++ ")\tTarget: " ++ targets ++
        "\n\t\tSnippet: " ++ snippet ++ "\n\t\tMessages:" ++ concatStrings msgs)
  | _ => .error PyErr.typeError

/-- The node loop: blocks for `nodes`, numbering from `num`. -/
def nodeBlocks (num : Nat) : List PyVal → Except PyErr String
  | [] => .ok ""
  | n :: rest => do
      let b ← nodeBlock num n
      let r ← nodeBlocks (num + 1) rest
      pure (b ++ r)

/-- `__violation_report(violation, template)`: the node blocks, then the
template substitution over the violation's own fields plus `elements`. -/
def violationReport (violation : PyVal) (template : String) : Except PyErr String :=
  match violation with
  | .dict vd => do
      let nodesV ←
        match lookupKey vd "nodes" with
        | some v => pure v
        | Option.none => Except.error (PyErr.keyError "nodes")
      let nodes ← pyIter nodesV
      let nodesStr ← nodeBlocks 1 nodes
      templateSubstitute template vd nodesStr
  | _ => .error PyErr.typeError

/-! ### `AxeResults.generate_report` (base.py lines 94–111)

The template file `violations.txt` is read on every call; its text enters
the model as the `template` parameter. -/

/-- `violation_id != violation["id"]` with `violation_id` a string: a
string equals only an equal string. -/
def pyEqStr (s : String) : PyVal → Bool
  | .str t => s == t
  | _ => false

/-- The violation loop: when `violationId` is set, violations whose `id`
differs are skipped (evaluating the subscript first); every rendered
block is appended in order. -/
def reportLoop (violationId : Option String) (template : String) :
    List PyVal → Except PyErr String
  | [] => .ok ""
  | v :: rest =>
    match violationId with
    | some rid => do
        let idv ← pySubscript v "id"
        if pyEqStr rid idv then do
          let b ← violationReport v template
          let r ← reportLoop violationId template rest
          pure (b ++ r)
        else reportLoop violationId template rest
    | Option.none => do
        let b ← violationReport v template
        let r ← reportLoop violationId template rest
        pure (b ++ r)

/-- `generate_report(violation_id)`: summary line only when no filter is
given, then the loop over `self.response["violations"]`. -/
def generate_report (response : PyDict) (violationId : Option String) (template : String) :
    Except PyErr String := do
  let violationsV ←
    match lookupKey response "violations" with
    | some v => pure v
    | Option.none => Except.error (PyErr.keyError "violations")
  let summary ←
    match violationId with
    | Option.none => do
        let n ← pyLen violationsV
        pure ("Found " ++ toString n ++ " accessibility violations:\n")
    | some _ => pure ""
  let vs ← pyIter violationsV
  (fun body => summary ++ body) <$> reportLoop violationId template vs

/-! ### Specification-side helpers used only in theorem statements -/

/-- A violation matches the filter when its `id` field is present and
equals the filter string. -/
def matchesId (rid : String) (v : PyVal) : Bool :=
  match pySubscript v "id" with
  | .ok idv => pyEqStr rid idv
  | .error _ => false

/-- Check-message relation between one check item and its message text. -/
def HasMsg (it : PyVal) (m : String) : Prop :=
  ∃ d, it = PyVal.dict d ∧ lookupKey d "message" = some (.str m)

/-- The value of an optional check category (`all` / `any` / `none`)
carries exactly the message texts `ms`: an absent category carries none,
a present one is a list of check items in message order. -/
def MsgItems (o : Option PyVal) (ms : List String) : Prop :=
  match o with
  | Option.none => ms = []
  | some v => ∃ items, v = PyVal.list items ∧ List.Forall₂ HasMsg items ms

/-! ## Theorems -/

theorem except_bind_ok {ε α β : Type} (a : α) (f : α → Except ε β) :
    (Except.ok a : Except ε α) >>= f = f a := rfl

theorem except_bind_error {ε α β : Type} (e : ε) (f : α → Except ε β) :
    (Except.error e : Except ε α) >>= f = Except.error e := rfl

theorem except_pure {ε α : Type} (a : α) : (pure a : Except ε α) = Except.ok a := rfl

theorem mapM_cons_except {α β ε : Type} (f : α → Except ε β) (a : α) (l : List α) :
    (a :: l).mapM f = (do
      let b ← f a
      let bs ← l.mapM f
      pure (b :: bs)) := by
  rw [← List.mapM'_eq_mapM, List.mapM', List.mapM'_eq_mapM]

/-- C2: For every context and options value, the argument string built for
the scan invocation is: empty when both are falsy; exactly the options
literal (`str(options)`) when only options is truthy; exactly the quoted
context representation (`repr(context)`) when only context is truthy; and
the two joined by a comma in (context, options) order when both are
truthy. -/
theorem format_script_args_cases (context options : PyVal) :
    format_script_args context options =
      if pyTruthy context then
        if pyTruthy options then pyRepr context ++ "," ++ pyStr options
        else pyRepr context
      else
        if pyTruthy options then pyStr options
        else "" := by
  by_cases hc : pyTruthy context <;> by_cases ho : pyTruthy options <;>
    simp [format_script_args, hc, ho, strJoinList]

/-- C4: For every well-formed raw result (a dict binding `"violations"` to
a list), `violations_count` returns the length of that list. -/
theorem violations_count_spec (response : PyDict) (vs : List PyVal)
    (h : lookupKey response "violations" = some (.list vs)) :
    violations_count response = .ok vs.length := by
  simp [violations_count, h, pyLen]

/-- Witness for C4 at the end-to-end sample result. -/
theorem violations_count_spec_witness :
    lookupKey [("violations", PyVal.list [PyVal.dict [("id", PyVal.str "color-contrast")]])]
        "violations" = some (PyVal.list [PyVal.dict [("id", PyVal.str "color-contrast")]]) ∧
    violations_count [("violations", PyVal.list [PyVal.dict [("id", PyVal.str "color-contrast")]])] =
      .ok 1 :=
  ⟨rfl, violations_count_spec _ [PyVal.dict [("id", PyVal.str "color-contrast")]] rfl⟩

/-- Well-formedness of one violation for the snapshot: dict fields `id`
and `impact` are the given strings and `nodes` is a list of the given
length. -/
def SnapshotRow (v : PyVal) (d : String × String × Nat) : Prop :=
  ∃ vd ns,
    v = PyVal.dict vd ∧
    lookupKey vd "id" = some (.str d.1) ∧
    lookupKey vd "impact" = some (.str d.2.1) ∧
    lookupKey vd "nodes" = some (.list ns) ∧ ns.length = d.2.2

theorem snapshot_mapM : ∀ (vs : List PyVal) (ld : List (String × String × Nat)),
    List.Forall₂ SnapshotRow vs ld →
    vs.mapM snapshotLine =
      Except.ok (ld.map (fun d => d.1 ++ " (" ++ d.2.1 ++ ") : " ++ toString d.2.2))
  | [], [], _ => rfl
  | [], _ :: _, h => nomatch h
  | _ :: _, [], h => nomatch h
  | v :: vs, d :: ld, h => by
      obtain ⟨hrow, htail⟩ := List.forall₂_cons.mp h
      obtain ⟨vd, ns, rfl, hid, himp, hnodes, hlen⟩ := hrow
      have h1 : pySubscript (PyVal.dict vd) "id" = Except.ok (PyVal.str d.1) := by
        simp [pySubscript, hid]
      have h2 : pySubscript (PyVal.dict vd) "impact" = Except.ok (PyVal.str d.2.1) := by
        simp [pySubscript, himp]
      have h3 : pySubscript (PyVal.dict vd) "nodes" = Except.ok (PyVal.list ns) := by
        simp [pySubscript, hnodes]
      have hline : snapshotLine (PyVal.dict vd) =
          Except.ok (d.1 ++ " (" ++ d.2.1 ++ ") : " ++ toString ns.length) := by
        unfold snapshotLine
        rw [h1, h2, h3]
        rfl
      rw [mapM_cons_except, hline, snapshot_mapM vs ld htail, hlen]
      rfl

/-- C5: For every well-formed raw result, `generate_snapshot` produces one
line per violation, in violation order, each line exactly
`<id> (<impact>) : <decimal node count>`, joined by single newlines; the
number of lines equals the number of violations. -/
theorem generate_snapshot_spec (response : PyDict) (vs : List PyVal)
    (ld : List (String × String × Nat))
    (hv : lookupKey response "violations" = some (.list vs))
    (hwf : List.Forall₂ SnapshotRow vs ld) :
    generate_snapshot response =
      .ok (strJoinList "\n"
        (ld.map (fun d => d.1 ++ " (" ++ d.2.1 ++ ") : " ++ toString d.2.2))) ∧
    ld.length = vs.length := by
  refine ⟨?_, hwf.length_eq.symm⟩
  unfold generate_snapshot
  rw [hv]
  show (do
    let vs' ← pyIter (PyVal.list vs)
    let lines ← vs'.mapM snapshotLine
    pure (strJoinList "\n" lines) : Except PyErr String) = _
  rw [show pyIter (PyVal.list vs) = Except.ok vs from rfl]
  show (do
    let lines ← vs.mapM snapshotLine
    pure (strJoinList "\n" lines) : Except PyErr String) = _
  rw [snapshot_mapM vs ld hwf]
  rfl

/-- Witness for C5 at the end-to-end sample result. -/
theorem generate_snapshot_spec_witness :
    List.Forall₂ SnapshotRow
        [PyVal.dict [("id", PyVal.str "color-contrast"), ("impact", PyVal.str "serious"),
          ("nodes", PyVal.list [PyVal.dict []])]]
        ([("color-contrast", "serious", 1)] : List (String × String × Nat)) ∧
    generate_snapshot [("violations", PyVal.list [PyVal.dict
        [("id", PyVal.str "color-contrast"), ("impact", PyVal.str "serious"),
          ("nodes", PyVal.list [PyVal.dict []])]])] =
      .ok (strJoinList "\n"
        (([("color-contrast", "serious", 1)] : List (String × String × Nat)).map
          (fun d => d.1 ++ " (" ++ d.2.1 ++ ") : " ++ toString d.2.2))) :=
  have fa : List.Forall₂ SnapshotRow
      [PyVal.dict [("id", PyVal.str "color-contrast"), ("impact", PyVal.str "serious"),
        ("nodes", PyVal.list [PyVal.dict []])]]
      ([("color-contrast", "serious", 1)] : List (String × String × Nat)) :=
    List.Forall₂.cons ⟨_, [PyVal.dict []], rfl, rfl, rfl, rfl, rfl⟩ List.Forall₂.nil
  ⟨fa, (generate_snapshot_spec
    [("violations", PyVal.list [PyVal.dict
        [("id", PyVal.str "color-contrast"), ("impact", PyVal.str "serious"),
          ("nodes", PyVal.list [PyVal.dict []])]])]
    [PyVal.dict [("id", PyVal.str "color-contrast"), ("impact", PyVal.str "serious"),
      ("nodes", PyVal.list [PyVal.dict []])]]
    ([("color-contrast", "serious", 1)] : List (String × String × Nat)) rfl fa).1⟩

theorem heapGet_concat (h : Heap) (d : PyDict) : heapGet (h ++ [d]) h.length = d := by
  simp [heapGet, List.getD_eq_getElem?_getD, List.getElem?_concat_length]

theorem heapGet_append_left (h : Heap) (r : Nat) (hr : r < h.length) (d : PyDict) :
    heapGet (h ++ [d]) r = heapGet h r := by
  simp [heapGet, List.getD_eq_getElem?_getD, List.getElem?_append_left hr]

/-- C3: For every raw result and both values of `violations_only`,
running `save_to_file` leaves the dict object held by `self.response`
unchanged — the category deletions act on the copy, a distinct object —
and the outcome (written text or raised `KeyError`) is exactly that of
the pure `save_to_file` function of the original response. -/
theorem save_to_file_frame (h : Heap) (r : Nat) (vo : Bool) (hr : r < h.length) :
    heapGet (save_to_file_heap h r vo).1 r = heapGet h r ∧
    (save_to_file_heap h r vo).2 = save_to_file (heapGet h r) vo := by
  cases vo with
  | false =>
      refine ⟨heapGet_append_left h r hr _, ?_⟩
      show Except.ok (jsonDumps 4 (.dict (heapGet (h ++ [heapGet h r]) h.length))) = _
      rw [heapGet_concat]
      rfl
  | true =>
      by_cases hk1 : hasKey (heapGet h r) "inapplicable" = true
      case neg =>
        rw [Bool.not_eq_true] at hk1
        refine ⟨?_, ?_⟩ <;>
          simp [-List.filter_filter, save_to_file_heap, heapCopy, heapDel, save_to_file,
            delKey, heapGet_concat, heapGet_append_left h r hr, hk1,
            except_bind_ok, except_bind_error, except_pure]
      case pos =>
        by_cases hk2 : hasKey ((heapGet h r).filter
            (fun kv => !(kv.1 == "inapplicable"))) "incomplete" = true
        case neg =>
          rw [Bool.not_eq_true] at hk2
          refine ⟨?_, ?_⟩ <;>
            simp [-List.filter_filter, save_to_file_heap, heapCopy, heapDel, save_to_file,
              delKey, heapGet_concat, heapGet_append_left h r hr, hk1, hk2,
              except_bind_ok, except_bind_error, except_pure]
        case pos =>
          by_cases hk3 : hasKey (((heapGet h r).filter
              (fun kv => !(kv.1 == "inapplicable"))).filter
              (fun kv => !(kv.1 == "incomplete"))) "passes" = true
          case neg =>
            rw [Bool.not_eq_true] at hk3
            refine ⟨?_, ?_⟩ <;>
              simp [-List.filter_filter, save_to_file_heap, heapCopy, heapDel, save_to_file,
                delKey, heapGet_concat, heapGet_append_left h r hr, hk1, hk2, hk3,
                except_bind_ok, except_bind_error, except_pure]
          case pos =>
            refine ⟨?_, ?_⟩ <;>
              simp [-List.filter_filter, save_to_file_heap, heapCopy, heapDel, save_to_file,
                delKey, heapGet_concat, heapGet_append_left h r hr, hk1, hk2, hk3,
                except_bind_ok, except_bind_error, except_pure]

/-- Witness for C3: a one-object heap whose result has all four category
keys. -/
theorem save_to_file_frame_witness :
    (0 : Nat) < ([[("violations", PyVal.list []), ("inapplicable", PyVal.list []),
      ("incomplete", PyVal.list []), ("passes", PyVal.list [])]] : Heap).length ∧
    (heapGet (save_to_file_heap [[("violations", PyVal.list []), ("inapplicable", PyVal.list []),
        ("incomplete", PyVal.list []), ("passes", PyVal.list [])]] 0 true).1 0 =
      heapGet [[("violations", PyVal.list []), ("inapplicable", PyVal.list []),
        ("incomplete", PyVal.list []), ("passes", PyVal.list [])]] 0 ∧
    (save_to_file_heap [[("violations", PyVal.list []), ("inapplicable", PyVal.list []),
        ("incomplete", PyVal.list []), ("passes", PyVal.list [])]] 0 true).2 =
      save_to_file (heapGet [[("violations", PyVal.list []), ("inapplicable", PyVal.list []),
        ("incomplete", PyVal.list []), ("passes", PyVal.list [])]] 0) true) :=
  ⟨Nat.zero_lt_one,
    save_to_file_frame [[("violations", PyVal.list []), ("inapplicable", PyVal.list []),
      ("incomplete", PyVal.list []), ("passes", PyVal.list [])]] 0 true Nat.zero_lt_one⟩

theorem string_empty_append (s : String) : "" ++ s = s := by
  cases s with
  | mk l => show String.mk ([] ++ l) = String.mk l; rw [List.nil_append]

theorem except_map_empty_append (e : Except PyErr String) :
    Except.map (fun b => "" ++ b) e = e := by
  cases e <;> simp [Except.map, string_empty_append]

/-- `generate_report` with a filter: no summary, just the loop. -/
theorem generate_report_eq_loop (response : PyDict) (template rid : String)
    (xs : List PyVal) (hv : lookupKey response "violations" = some (.list xs)) :
    generate_report response (some rid) template = reportLoop (some rid) template xs := by
  unfold generate_report
  rw [hv]
  show (do
    let violationsV ← (pure (PyVal.list xs) : Except PyErr PyVal)
    let summary ← (pure "" : Except PyErr String)
    let vs ← pyIter violationsV
    (fun body => summary ++ body) <$> reportLoop (some rid) template vs) = _
  rw [except_pure, except_bind_ok, except_pure, except_bind_ok]
  show Except.map (fun body => "" ++ body) (reportLoop (some rid) template xs) = _
  rw [except_map_empty_append]

/-- `generate_report` without a filter: the summary line is prepended to
the loop's output. -/
theorem generate_report_none_eq (response : PyDict) (template : String)
    (xs : List PyVal) (hv : lookupKey response "violations" = some (.list xs)) :
    generate_report response Option.none template =
      Except.map (fun b => "Found " ++ toString xs.length ++ " accessibility violations:\n" ++ b)
        (reportLoop Option.none template xs) := by
  unfold generate_report
  rw [hv]
  show (do
    let violationsV ← (pure (PyVal.list xs) : Except PyErr PyVal)
    let summary ← (do
      let n ← pyLen violationsV
      pure ("Found " ++ toString n ++ " accessibility violations:\n") : Except PyErr String)
    let vs ← pyIter violationsV
    (fun body => summary ++ body) <$> reportLoop Option.none template vs) = _
  rw [except_pure, except_bind_ok]
  show (do
    let summary ← (pure ("Found " ++ toString xs.length ++ " accessibility violations:\n") :
      Except PyErr String)
    let vs ← pyIter (PyVal.list xs)
    (fun body => summary ++ body) <$> reportLoop Option.none template vs) = _
  rw [except_pure, except_bind_ok]
  rfl

/-- C8: With no `rule_id`, a raw result with zero violations reports
exactly `"Found 0 accessibility violations:\n"`; in general the summary
line states the violation count and is prepended exactly when `rule_id`
is omitted. -/
theorem generate_report_summary (response : PyDict) (template : String)
    (xs : List PyVal) (hv : lookupKey response "violations" = some (.list xs)) :
    (xs = [] → generate_report response Option.none template =
      .ok "Found 0 accessibility violations:\n") ∧
    generate_report response Option.none template =
      Except.map (fun b => "Found " ++ toString xs.length ++ " accessibility violations:\n" ++ b)
        (reportLoop Option.none template xs) ∧
    ∀ rid, generate_report response (some rid) template = reportLoop (some rid) template xs := by
  refine ⟨?_, generate_report_none_eq response template xs hv,
    fun rid => generate_report_eq_loop response template rid xs hv⟩
  intro hnil
  subst hnil
  rw [generate_report_none_eq response template [] hv]
  rfl

/-- Witness for C8 at a result with an empty violations list. -/
theorem generate_report_summary_witness :
    lookupKey [("violations", PyVal.list [])] "violations" = some (PyVal.list []) ∧
    generate_report [("violations", PyVal.list [])] Option.none "tmpl" =
      .ok "Found 0 accessibility violations:\n" :=
  ⟨rfl, (generate_report_summary [("violations", PyVal.list [])] "tmpl" [] rfl).1 rfl⟩

theorem reportLoop_no_match (rid template : String) :
    ∀ vs : List PyVal,
    (∀ v ∈ vs, ∃ idv, pySubscript v "id" = .ok idv ∧ pyEqStr rid idv = false) →
    reportLoop (some rid) template vs = .ok ""
  | [], _ => rfl
  | v :: vs, h => by
      obtain ⟨idv, hid, hne⟩ := h v (List.mem_cons_self v vs)
      have ih := reportLoop_no_match rid template vs
        (fun w hw => h w (List.mem_cons_of_mem v hw))
      simp [reportLoop, hid, hne, ih, except_bind_ok]

/-- C7: When no violation's `id` equals the given `rule_id`,
`generate_report(rule_id)` returns the empty string — no summary line, no
detail blocks, no error. -/
theorem generate_report_no_match (response : PyDict) (template rid : String)
    (vs : List PyVal)
    (hv : lookupKey response "violations" = some (.list vs))
    (hno : ∀ v ∈ vs, ∃ idv, pySubscript v "id" = .ok idv ∧ pyEqStr rid idv = false) :
    generate_report response (some rid) template = .ok "" := by
  rw [generate_report_eq_loop response template rid vs hv]
  exact reportLoop_no_match rid template vs hno

/-- Witness for C7: one violation with id `"a"`, filter `"b"`. -/
theorem generate_report_no_match_witness :
    (∀ v ∈ [PyVal.dict [("id", PyVal.str "a")]],
      ∃ idv, pySubscript v "id" = Except.ok idv ∧ pyEqStr "b" idv = false) ∧
    generate_report [("violations", PyVal.list [PyVal.dict [("id", PyVal.str "a")]])]
      (some "b") "tmpl" = .ok "" := by
  have hno : ∀ v ∈ [PyVal.dict [("id", PyVal.str "a")]],
      ∃ idv, pySubscript v "id" = Except.ok idv ∧ pyEqStr "b" idv = false := by
    intro v hv
    rw [List.mem_singleton] at hv
    subst hv
    exact ⟨PyVal.str "a", rfl, rfl⟩
  exact ⟨hno, generate_report_no_match
    [("violations", PyVal.list [PyVal.dict [("id", PyVal.str "a")]])] "tmpl" "b" _ rfl hno⟩

theorem reportLoop_filter (rid template : String) :
    ∀ xs : List PyVal,
    (∀ v ∈ xs, ∃ idv, pySubscript v "id" = .ok idv) →
    reportLoop (some rid) template xs =
      Except.map concatStrings
        ((xs.filter (matchesId rid)).mapM (fun v => violationReport v template))
  | [], _ => rfl
  | v :: xs, h => by
      obtain ⟨idv, hid⟩ := h v (List.mem_cons_self v xs)
      have ih := reportLoop_filter rid template xs
        (fun w hw => h w (List.mem_cons_of_mem v hw))
      by_cases hm : pyEqStr rid idv = true
      case pos =>
        have hmv : matchesId rid v = true := by simp [matchesId, hid, hm]
        simp only [reportLoop, hid, except_bind_ok, hm, if_true, ih,
          List.filter_cons, hmv, mapM_cons_except]
        cases hb : violationReport v template with
        | error e => simp [hb, except_bind_error, Except.map]
        | ok b =>
            cases hbs : (xs.filter (matchesId rid)).mapM (fun v => violationReport v template) with
            | error e =>
                simp [hb, hbs, except_bind_ok, except_bind_error, Except.map]
            | ok bs =>
                simp [hb, hbs, except_bind_ok, except_pure, Except.map, concatStrings]
      case neg =>
        rw [Bool.not_eq_true] at hm
        have hmv : matchesId rid v = false := by simp [matchesId, hid, hm]
        simp [reportLoop, hid, except_bind_ok, hm, ih, List.filter_cons, hmv]

/-- C10: With a `rule_id` filter, the report consists of one detail block
for every violation whose id matches, concatenated in the original
violation order (not just the first match). -/
theorem generate_report_all_matches (response : PyDict) (template rid : String)
    (xs : List PyVal)
    (hv : lookupKey response "violations" = some (.list xs))
    (hid : ∀ v ∈ xs, ∃ idv, pySubscript v "id" = .ok idv) :
    generate_report response (some rid) template =
      Except.map concatStrings
        ((xs.filter (matchesId rid)).mapM (fun v => violationReport v template)) := by
  rw [generate_report_eq_loop response template rid xs hv]
  exact reportLoop_filter rid template xs hid

/-- Witness for C10: two violations share id `"a"`, one has id `"b"`. -/
theorem generate_report_all_matches_witness :
    (∀ v ∈ [PyVal.dict [("id", PyVal.str "a"), ("nodes", PyVal.list [])],
        PyVal.dict [("id", PyVal.str "b"), ("nodes", PyVal.list [])],
        PyVal.dict [("id", PyVal.str "a"), ("nodes", PyVal.list []), ("k", PyVal.int 1)]],
      ∃ idv, pySubscript v "id" = Except.ok idv) ∧
    generate_report [("violations", PyVal.list
        [PyVal.dict [("id", PyVal.str "a"), ("nodes", PyVal.list [])],
          PyVal.dict [("id", PyVal.str "b"), ("nodes", PyVal.list [])],
          PyVal.dict [("id", PyVal.str "a"), ("nodes", PyVal.list []), ("k", PyVal.int 1)]])]
      (some "a") "tmpl" =
      Except.map concatStrings
        (([PyVal.dict [("id", PyVal.str "a"), ("nodes", PyVal.list [])],
            PyVal.dict [("id", PyVal.str "b"), ("nodes", PyVal.list [])],
            PyVal.dict [("id", PyVal.str "a"), ("nodes", PyVal.list []), ("k", PyVal.int 1)]].filter
          (matchesId "a")).mapM (fun v => violationReport v "tmpl")) := by
  have hid : ∀ v ∈ [PyVal.dict [("id", PyVal.str "a"), ("nodes", PyVal.list [])],
      PyVal.dict [("id", PyVal.str "b"), ("nodes", PyVal.list [])],
      PyVal.dict [("id", PyVal.str "a"), ("nodes", PyVal.list []), ("k", PyVal.int 1)]],
      ∃ idv, pySubscript v "id" = Except.ok idv := by
    intro v hv
    simp only [List.mem_cons, List.mem_singleton] at hv
    rcases hv with rfl | rfl | rfl | h
    · exact ⟨PyVal.str "a", rfl⟩
    · exact ⟨PyVal.str "b", rfl⟩
    · exact ⟨PyVal.str "a", rfl⟩
    · cases h
  exact ⟨hid, generate_report_all_matches _ "tmpl" "a" _ rfl hid⟩

theorem mapM_extract_str : ∀ ts : List String,
    (ts.map PyVal.str).mapM (fun x =>
      match x with
      | PyVal.str s => Except.ok s
      | _ => Except.error PyErr.typeError) = Except.ok ts
  | [] => rfl
  | t :: ts => by
      rw [List.map_cons, mapM_cons_except, mapM_extract_str ts]
      rfl

theorem joinStrings_strs (sep : String) (ts : List String) :
    joinStrings sep (.list (ts.map PyVal.str)) = .ok (strJoinList sep ts) := by
  simp only [joinStrings, pyIter, except_bind_ok, mapM_extract_str]
  rfl

theorem msgItems_getD (o : Option PyVal) (ms : List String) (h : MsgItems o ms) :
    ∃ items, o.getD (PyVal.list []) = PyVal.list items ∧ List.Forall₂ HasMsg items ms := by
  cases o with
  | none =>
      have hms : ms = [] := h
      subst hms
      exact ⟨[], rfl, List.Forall₂.nil⟩
  | some v =>
      obtain ⟨items, rfl, hf⟩ := h
      exact ⟨items, rfl, hf⟩

theorem mapM_msgLine : ∀ (items : List PyVal) (ms : List String),
    List.Forall₂ HasMsg items ms →
    items.mapM msgLine = Except.ok (ms.map (fun m => "\n\t\t* " ++ m))
  | [], [], _ => rfl
  | [], _ :: _, h => nomatch h
  | _ :: _, [], h => nomatch h
  | it :: items, m :: ms, h => by
      obtain ⟨hm, ht⟩ := List.forall₂_cons.mp h
      obtain ⟨d, rfl, hlook⟩ := hm
      rw [mapM_cons_except]
      have hline : msgLine (PyVal.dict d) = .ok ("\n\t\t* " ++ m) := by
        simp [msgLine, pySubscript, hlook, except_bind_ok, except_pure]
      rw [hline, mapM_msgLine items ms ht]
      rfl

/-- C9: Each node's detail block shows the node's target selectors joined
by `", "`, the node's html snippet with every embedded newline removed,
and the check messages flattened from the categories `all`, `any`, `none`
in that order, preserving within-category order, an absent category
contributing nothing. -/
theorem nodeBlock_spec (num : Nat) (nd : PyDict) (ts : List String) (html : String)
    (msA msB msC : List String)
    (ht : lookupKey nd "target" = some (.list (ts.map PyVal.str)))
    (hh : lookupKey nd "html" = some (.str html))
    (ha : MsgItems (lookupKey nd "all") msA)
    (hb : MsgItems (lookupKey nd "any") msB)
    (hc : MsgItems (lookupKey nd "none") msC) :
    nodeBlock num (.dict nd) = .ok ("\n\n\t" ++ toString num ++ ")\tTarget: " ++
      strJoinList ", " ts ++ "\n\t\tSnippet: " ++ stripNewlines html ++ "\n\t\tMessages:" ++
      concatStrings ((msA ++ msB ++ msC).map (fun m => "\n\t\t* " ++ m))) := by
  obtain ⟨iA, hgA, hfA⟩ := msgItems_getD _ _ ha
  obtain ⟨iB, hgB, hfB⟩ := msgItems_getD _ _ hb
  obtain ⟨iC, hgC, hfC⟩ := msgItems_getD _ _ hc
  have hmap := mapM_msgLine ((iA ++ iB) ++ iC) ((msA ++ msB) ++ msC)
    (List.rel_append (List.rel_append hfA hfB) hfC)
  simp only [nodeBlock, ht, hh, hgA, hgB, hgC, joinStrings_strs, getHtmlSnippet,
    pyAdd, pyIter, hmap, except_bind_ok, except_pure]

/-- Witness for C9: a node with two selectors, a two-line snippet, one
`any` check message, `all` and `none` absent. -/
theorem nodeBlock_spec_witness :
    lookupKey [("target", PyVal.list [PyVal.str "#a", PyVal.str "#b"]),
        ("html", PyVal.str "<a\nb>"),
        ("any", PyVal.list [PyVal.dict [("message", PyVal.str "m1")]])] "target" =
      some (.list (["#a", "#b"].map PyVal.str)) ∧
    MsgItems (lookupKey [("target", PyVal.list [PyVal.str "#a", PyVal.str "#b"]),
        ("html", PyVal.str "<a\nb>"),
        ("any", PyVal.list [PyVal.dict [("message", PyVal.str "m1")]])] "any") ["m1"] ∧
    nodeBlock 1 (.dict [("target", PyVal.list [PyVal.str "#a", PyVal.str "#b"]),
        ("html", PyVal.str "<a\nb>"),
        ("any", PyVal.list [PyVal.dict [("message", PyVal.str "m1")]])]) =
      .ok ("\n\n\t" ++ toString (1 : Nat) ++ ")\tTarget: " ++
        strJoinList ", " ["#a", "#b"] ++ "\n\t\tSnippet: " ++ stripNewlines "<a\nb>" ++
        "\n\t\tMessages:" ++
        concatStrings ((([] : List String) ++ ["m1"] ++ ([] : List String)).map
          (fun m => "\n\t\t* " ++ m))) :=
  have hmsB : MsgItems (lookupKey [("target", PyVal.list [PyVal.str "#a", PyVal.str "#b"]),
      ("html", PyVal.str "<a\nb>"),
      ("any", PyVal.list [PyVal.dict [("message", PyVal.str "m1")]])] "any") ["m1"] :=
    ⟨[PyVal.dict [("message", PyVal.str "m1")]], rfl,
      List.Forall₂.cons ⟨[("message", PyVal.str "m1")], rfl, rfl⟩ List.Forall₂.nil⟩
  ⟨rfl, hmsB, nodeBlock_spec 1 _ ["#a", "#b"] "<a\nb>" [] ["m1"] [] rfl rfl rfl hmsB rfl⟩

/-! ### Round-trip of the JSON serialization -/

theorem skipWs_cons_ws (c : Char) (t : List Char) (h : isWsChar c = true) :
    skipWs (c :: t) = skipWs t := by simp [skipWs, h]

theorem skipWs_cons_not (c : Char) (t : List Char) (h : isWsChar c = false) :
    skipWs (c :: t) = c :: t := by simp [skipWs, h]

theorem skipWs_replicate (n : Nat) (t : List Char) :
    skipWs (List.replicate n ' ' ++ t) = skipWs t := by
  induction n with
  | zero => rfl
  | succ n ih => simpa [List.replicate_succ, skipWs, isWsChar] using ih

theorem skipWs_indent (ind lvl : Nat) (t : List Char) :
    skipWs (indentChars ind lvl ++ t) = skipWs t := skipWs_replicate _ t

theorem hexVal_hexDigitCh (d : Nat) (h : d < 16) : hexVal (hexDigitCh d) = some d := by
  interval_cases d <;> decide

theorem hex4_toHex4 (n : Nat) (h : n < 65536) :
    hex4 (hexDigitCh (n / 4096 % 16)) (hexDigitCh (n / 256 % 16))
      (hexDigitCh (n / 16 % 16)) (hexDigitCh (n % 16)) = some n := by
  have h1 : n / 4096 % 16 < 16 := Nat.mod_lt _ (by norm_num)
  have h2 : n / 256 % 16 < 16 := Nat.mod_lt _ (by norm_num)
  have h3 : n / 16 % 16 < 16 := Nat.mod_lt _ (by norm_num)
  have h4 : n % 16 < 16 := Nat.mod_lt _ (by norm_num)
  have e1 : n / 4096 < 16 := by omega
  have d1 : n / 256 / 16 = n / 4096 := by rw [Nat.div_div_eq_div_mul]
  have d2 : n / 16 / 16 = n / 256 := by rw [Nat.div_div_eq_div_mul]
  have m1 : n / 4096 % 16 = n / 4096 := Nat.mod_eq_of_lt e1
  have s1 : n / 4096 * 16 + n / 256 % 16 = n / 256 := by
    have := Nat.div_add_mod (n / 256) 16
    rw [d1] at this
    omega
  have s2 : n / 256 * 16 + n / 16 % 16 = n / 16 := by
    have := Nat.div_add_mod (n / 16) 16
    rw [d2] at this
    omega
  simp only [hex4, hexVal_hexDigitCh _ h1, hexVal_hexDigitCh _ h2, hexVal_hexDigitCh _ h3,
    hexVal_hexDigitCh _ h4]
  show some ((((n / 4096 % 16) * 16 + n / 256 % 16) * 16 + n / 16 % 16) * 16 + n % 16) = some n
  rw [m1, s1, s2]
  have := Nat.div_add_mod n 16
  congr 1
  omega

theorem digitCh_isDigit (d : Nat) (h : d < 10) : (digitCh d).isDigit = true := by
  interval_cases d <;> decide

theorem digitCh_toNat (d : Nat) (h : d < 10) : (digitCh d).toNat - 48 = d := by
  interval_cases d <;> decide

theorem digitCh_facts (d : Nat) (h : d < 10) :
    isWsChar (digitCh d) = false ∧ digitCh d ≠ 'n' ∧ digitCh d ≠ 't' ∧ digitCh d ≠ 'f' ∧
    digitCh d ≠ '"' ∧ digitCh d ≠ '[' ∧ digitCh d ≠ '\x7b' ∧ digitCh d ≠ '-' ∧
    digitCh d ≠ ']' ∧ digitCh d ≠ '\x7d' := by
  interval_cases d <;> decide

theorem parseDigitsAux_digits : ∀ (ds : List Nat) (acc : Nat) (t : List Char),
    (∀ d ∈ ds, d < 10) → notDigitStart t →
    parseDigitsAux (ds.map digitCh ++ t) acc =
      (ds.foldl (fun a d => a * 10 + d) acc, t)
  | [], _, [], _, _ => rfl
  | [], acc, c :: t, _, ht => by
      have hc : c.isDigit = false := ht
      simp [parseDigitsAux, hc]
  | d :: ds, acc, t, hds, ht => by
      have hd : d < 10 := hds d (List.mem_cons_self d ds)
      have ih := parseDigitsAux_digits ds (acc * 10 + d) t
        (fun x hx => hds x (List.mem_cons_of_mem d hx)) ht
      simp [parseDigitsAux, digitCh_isDigit d hd, digitCh_toNat d hd, ih, List.foldl_cons]

theorem foldl_reverse_ofDigits : ∀ (l : List Nat) (acc : Nat),
    l.reverse.foldl (fun a d => a * 10 + d) acc = acc * 10 ^ l.length + Nat.ofDigits 10 l
  | [], acc => by simp [Nat.ofDigits]
  | d :: l, acc => by
      rw [List.reverse_cons, List.foldl_append, foldl_reverse_ofDigits l acc]
      simp only [List.foldl_cons, List.foldl_nil, Nat.ofDigits_cons, List.length_cons, pow_succ]
      ring

theorem parseNum_natChars (n : Nat) (t : List Char) (ht : notDigitStart t) :
    parseNum (natChars n ++ t) = some (n, t) := by
  by_cases h0 : n = 0
  · subst h0
    show parseNum ('0' :: t) = some (0, t)
    have haux : parseDigitsAux t 0 = (0, t) := by
      cases t with
      | nil => rfl
      | cons c t' =>
          have hc : c.isDigit = false := ht
          simp [parseDigitsAux, hc]
    simp [parseNum, haux]
  · have hne : Nat.digits 10 n ≠ [] := Nat.digits_ne_nil_iff_ne_zero.mpr h0
    obtain ⟨d, ds, hds⟩ : ∃ d ds, (Nat.digits 10 n).reverse = d :: ds := by
      cases hrev : (Nat.digits 10 n).reverse with
      | nil =>
          exact absurd (by simpa using congrArg List.reverse hrev) hne
      | cons d ds => exact ⟨d, ds, rfl⟩
    have hmem : ∀ x ∈ d :: ds, x < 10 := by
      intro x hx
      rw [← hds, List.mem_reverse] at hx
      exact Nat.digits_lt_base (by norm_num) hx
    have hd : d < 10 := hmem d (List.mem_cons_self d ds)
    have hnat : natChars n = digitCh d :: ds.map digitCh := by
      simp [natChars, h0, hds]
    rw [hnat]
    show parseNum (digitCh d :: (ds.map digitCh ++ t)) = some (n, t)
    have hfold : (d :: ds).foldl (fun a x => a * 10 + x) 0 = n := by
      rw [← hds, foldl_reverse_ofDigits]
      simp [Nat.ofDigits_digits]
    simp only [parseNum, digitCh_isDigit d hd, if_true, digitCh_toNat d hd,
      parseDigitsAux_digits ds d t (fun x hx => hmem x (List.mem_cons_of_mem d hx)) ht]
    rw [List.foldl_cons] at hfold
    simp only [Nat.zero_mul, Nat.zero_add] at hfold
    rw [hfold]

theorem char_valid_nat (c : Char) :
    c.toNat < 0xd800 ∨ (0xdfff < c.toNat ∧ c.toNat < 0x110000) := c.valid

theorem parseStrBody_quote (rest : List Char) :
    parseStrBody ('"' :: rest) = some ([], rest) := by
  rw [parseStrBody.eq_def]
  simp

theorem parseStrBody_backslash (rest : List Char) :
    parseStrBody ('\\' :: rest) = parseEsc rest := by
  rw [parseStrBody.eq_def]
  simp

theorem parseStrBody_plain (c : Char) (rest : List Char) (h1 : c ≠ '"') (h2 : c ≠ '\\')
    (h3 : ¬ c.toNat < 0x20) :
    parseStrBody (c :: rest) = (parseStrBody rest).map (fun p => (c :: p.1, p.2)) := by
  rw [parseStrBody.eq_def]
  simp [h1, h2, h3]

theorem parseEsc_u (rest : List Char) : parseEsc ('u' :: rest) = parseU rest := by
  rw [parseEsc.eq_def]
  simp

theorem parseEsc_short (e ec : Char) (rest2 : List Char) (he : e ≠ 'u')
    (hm : escCh e = some ec) :
    parseEsc (e :: rest2) = (parseStrBody rest2).map (fun p => (ec :: p.1, p.2)) := by
  rw [parseEsc.eq_def]
  simp [he, hm]

theorem parseU_bmp (c1 c2 c3 c4 : Char) (rest3 : List Char) (n : Nat)
    (hh : hex4 c1 c2 c3 c4 = some n) (hns : ¬ (0xd800 ≤ n ∧ n < 0xdc00)) :
    parseU (c1 :: c2 :: c3 :: c4 :: rest3) =
      (parseStrBody rest3).map (fun p => (Char.ofNat n :: p.1, p.2)) := by
  rw [parseU.eq_def]
  simp [hh, hns]

theorem parseU_sur (c1 c2 c3 c4 : Char) (rest3 : List Char) (n : Nat)
    (hh : hex4 c1 c2 c3 c4 = some n) (hs : 0xd800 ≤ n ∧ n < 0xdc00) :
    parseU (c1 :: c2 :: c3 :: c4 :: rest3) = parseLowSur n rest3 := by
  rw [parseU.eq_def]
  simp [hh, hs]

theorem parseLowSur_six (n : Nat) (d1 d2 d3 d4 : Char) (rest4 : List Char) (m : Nat)
    (hh : hex4 d1 d2 d3 d4 = some m) (hs : 0xdc00 ≤ m ∧ m < 0xe000) :
    parseLowSur n ('\\' :: 'u' :: d1 :: d2 :: d3 :: d4 :: rest4) =
      (parseStrBody rest4).map
        (fun p => (Char.ofNat (0x10000 + (n - 0xd800) * 0x400 + (m - 0xdc00)) :: p.1, p.2)) := by
  rw [parseLowSur.eq_def]
  simp [hh, hs]

theorem parseStrBody_esc (c : Char) (t : List Char) :
    parseStrBody (jsonEscChar c ++ t) = (parseStrBody t).map (fun p => (c :: p.1, p.2)) := by
  by_cases h1 : c = '"'
  · subst h1
    show parseStrBody ('\\' :: '"' :: t) = _
    rw [parseStrBody_backslash, parseEsc_short '"' '"' t (by decide) (by decide)]
  by_cases h2 : c = '\\'
  · subst h2
    show parseStrBody ('\\' :: '\\' :: t) = _
    rw [parseStrBody_backslash, parseEsc_short '\\' '\\' t (by decide) (by decide)]
  by_cases h3 : c = '\x08'
  · subst h3
    show parseStrBody ('\\' :: 'b' :: t) = _
    rw [parseStrBody_backslash, parseEsc_short 'b' '\x08' t (by decide) (by decide)]
  by_cases h4 : c = '\x0c'
  · subst h4
    show parseStrBody ('\\' :: 'f' :: t) = _
    rw [parseStrBody_backslash, parseEsc_short 'f' '\x0c' t (by decide) (by decide)]
  by_cases h5 : c = '\n'
  · subst h5
    show parseStrBody ('\\' :: 'n' :: t) = _
    rw [parseStrBody_backslash, parseEsc_short 'n' '\n' t (by decide) (by decide)]
  by_cases h6 : c = '\r'
  · subst h6
    show parseStrBody ('\\' :: 'r' :: t) = _
    rw [parseStrBody_backslash, parseEsc_short 'r' '\r' t (by decide) (by decide)]
  by_cases h7 : c = '\t'
  · subst h7
    show parseStrBody ('\\' :: 't' :: t) = _
    rw [parseStrBody_backslash, parseEsc_short 't' '\t' t (by decide) (by decide)]
  by_cases h8 : 0x20 ≤ c.toNat ∧ c.toNat ≤ 0x7e
  · have hesc : jsonEscChar c = [c] := by
      simp [jsonEscChar, h1, h2, h3, h4, h5, h6, h7, h8]
    have hlt : ¬ c.toNat < 0x20 := by omega
    rw [hesc]
    exact parseStrBody_plain c t h1 h2 hlt
  by_cases h9 : c.toNat < 0x10000
  · have hesc : jsonEscChar c = '\\' :: 'u' :: toHex4 c.toNat := by
      simp [jsonEscChar, h1, h2, h3, h4, h5, h6, h7, h8, h9]
    have hns : ¬ (0xd800 ≤ c.toNat ∧ c.toNat < 0xdc00) := by
      rcases char_valid_nat c with h | h <;> omega
    rw [hesc]
    show parseStrBody ('\\' :: 'u' :: (hexDigitCh (c.toNat / 4096 % 16) ::
      hexDigitCh (c.toNat / 256 % 16) :: hexDigitCh (c.toNat / 16 % 16) ::
      hexDigitCh (c.toNat % 16) :: t)) = _
    rw [parseStrBody_backslash, parseEsc_u,
      parseU_bmp _ _ _ _ t c.toNat (hex4_toHex4 c.toNat h9) hns, Char.ofNat_toNat]
  · have hv := char_valid_nat c
    have h10 : 0x10000 ≤ c.toNat ∧ c.toNat < 0x110000 := by
      rcases hv with h | h <;> omega
    have hesc : jsonEscChar c =
        ('\\' :: 'u' :: toHex4 (0xd800 + (c.toNat - 0x10000) / 0x400)) ++
          ('\\' :: 'u' :: toHex4 (0xdc00 + (c.toNat - 0x10000) % 0x400)) := by
      simp [jsonEscChar, h1, h2, h3, h4, h5, h6, h7, h8, h9]
    have hhi : 0xd800 + (c.toNat - 0x10000) / 0x400 < 65536 := by omega
    have hlo : 0xdc00 + (c.toNat - 0x10000) % 0x400 < 65536 := by
      have := Nat.mod_lt (c.toNat - 0x10000) (show 0 < 0x400 by norm_num)
      omega
    have hsur : 0xd800 ≤ 0xd800 + (c.toNat - 0x10000) / 0x400 ∧
        0xd800 + (c.toNat - 0x10000) / 0x400 < 0xdc00 := by omega
    have hsur2 : 0xdc00 ≤ 0xdc00 + (c.toNat - 0x10000) % 0x400 ∧
        0xdc00 + (c.toNat - 0x10000) % 0x400 < 0xe000 := by
      have := Nat.mod_lt (c.toNat - 0x10000) (show 0 < 0x400 by norm_num)
      omega
    have hcode : 0x10000 + ((0xd800 + (c.toNat - 0x10000) / 0x400) - 0xd800) * 0x400 +
        ((0xdc00 + (c.toNat - 0x10000) % 0x400) - 0xdc00) = c.toNat := by
      have := Nat.div_add_mod (c.toNat - 0x10000) 0x400
      omega
    rw [hesc]
    show parseStrBody ('\\' :: 'u' ::
      (hexDigitCh ((0xd800 + (c.toNat - 0x10000) / 0x400) / 4096 % 16) ::
        hexDigitCh ((0xd800 + (c.toNat - 0x10000) / 0x400) / 256 % 16) ::
        hexDigitCh ((0xd800 + (c.toNat - 0x10000) / 0x400) / 16 % 16) ::
        hexDigitCh ((0xd800 + (c.toNat - 0x10000) / 0x400) % 16) ::
        ('\\' :: 'u' :: hexDigitCh ((0xdc00 + (c.toNat - 0x10000) % 0x400) / 4096 % 16) ::
          hexDigitCh ((0xdc00 + (c.toNat - 0x10000) % 0x400) / 256 % 16) ::
          hexDigitCh ((0xdc00 + (c.toNat - 0x10000) % 0x400) / 16 % 16) ::
          hexDigitCh ((0xdc00 + (c.toNat - 0x10000) % 0x400) % 16) :: t))) = _
    rw [parseStrBody_backslash, parseEsc_u,
      parseU_sur _ _ _ _ _ _ (hex4_toHex4 _ hhi) hsur,
      parseLowSur_six _ _ _ _ _ _ _ (hex4_toHex4 _ hlo) hsur2, hcode, Char.ofNat_toNat]

theorem parseStrBody_flat : ∀ (l t : List Char),
    parseStrBody (l.flatMap jsonEscChar ++ '"' :: t) = some (l, t)
  | [], t => parseStrBody_quote t
  | c :: l, t => by
      rw [List.flatMap_cons, List.append_assoc, parseStrBody_esc, parseStrBody_flat l t]
      rfl

theorem parseVal_head (fuel : Nat) (cs : List Char) (c : Char) (rest : List Char)
    (h : skipWs cs = c :: rest) :
    parseVal (fuel + 1) cs =
      if c = 'n' then parseLitNull rest
      else if c = 't' then parseLitTrue rest
      else if c = 'f' then parseLitFalse rest
      else if c = '"' then (parseStrBody rest).map (fun p => (.str (String.mk p.1), p.2))
      else if c = '[' then parseListBody fuel rest
      else if c = '\x7b' then parseDictBody fuel rest
      else if c = '-' then parseNegNum rest
      else if c.isDigit then parsePosNum c rest
      else Option.none := by
  rw [parseVal.eq_def]
  simp only [h]

theorem parseVal_congr (fuel : Nat) (cs cs' : List Char) (h : skipWs cs = skipWs cs') :
    parseVal fuel cs = parseVal fuel cs' := by
  cases fuel with
  | zero =>
      rw [parseVal.eq_def]
      conv_rhs => rw [parseVal.eq_def]
  | succ f =>
      rw [parseVal.eq_def]
      conv_rhs => rw [parseVal.eq_def]
      simp only [h]

theorem parsePairX_congr (fuel : Nat) (cs cs' : List Char) (h : skipWs cs = skipWs cs') :
    parsePairX fuel cs = parsePairX fuel cs' := by
  cases fuel with
  | zero =>
      rw [parsePairX.eq_def]
      conv_rhs => rw [parsePairX.eq_def]
  | succ f =>
      rw [parsePairX.eq_def]
      conv_rhs => rw [parsePairX.eq_def]
      simp only [h]

theorem parseListBody_head (fuel : Nat) (cs : List Char) (d : Char) (rest2 : List Char)
    (h : skipWs cs = d :: rest2) :
    parseListBody fuel cs =
      (if d = ']' then some (.list [], rest2)
      else do
        let (v, rest3) ← parseVal fuel (d :: rest2)
        let (vs, rest4) ← parseListTail fuel rest3
        pure (.list (v :: vs), rest4)) := by
  rw [parseListBody.eq_def]
  simp only [h]

theorem parseListTail_head (fuel : Nat) (cs : List Char) (d : Char) (rest : List Char)
    (h : skipWs cs = d :: rest) :
    parseListTail (fuel + 1) cs =
      (if d = ']' then some ([], rest)
      else if d = ',' then do
        let (v, rest2) ← parseVal fuel rest
        let (vs, rest3) ← parseListTail fuel rest2
        pure (v :: vs, rest3)
      else Option.none) := by
  rw [parseListTail.eq_def]
  simp only [h]

theorem parseDictBody_head (fuel : Nat) (cs : List Char) (d : Char) (rest2 : List Char)
    (h : skipWs cs = d :: rest2) :
    parseDictBody fuel cs =
      (if d = '\x7d' then some (.dict [], rest2)
      else do
        let (kv, rest3) ← parsePairX fuel (d :: rest2)
        let (kvs, rest4) ← parseDictTail fuel rest3
        pure (.dict (kv :: kvs), rest4)) := by
  rw [parseDictBody.eq_def]
  simp only [h]

theorem parsePairX_head (fuel : Nat) (cs : List Char) (d : Char) (rest : List Char)
    (h : skipWs cs = d :: rest) :
    parsePairX (fuel + 1) cs =
      (if d = '"' then do
        let (kcs, rest2) ← parseStrBody rest
        parsePairColon fuel kcs rest2
      else Option.none) := by
  rw [parsePairX.eq_def]
  simp only [h]

theorem parsePairColon_head (fuel : Nat) (kcs : List Char) (rest2 : List Char) (e : Char)
    (rest3 : List Char) (h : skipWs rest2 = e :: rest3) :
    parsePairColon fuel kcs rest2 =
      (if e = ':' then do
        let (v, rest4) ← parseVal fuel rest3
        pure ((String.mk kcs, v), rest4)
      else Option.none) := by
  rw [parsePairColon.eq_def]
  simp only [h]

theorem parseDictTail_head (fuel : Nat) (cs : List Char) (d : Char) (rest : List Char)
    (h : skipWs cs = d :: rest) :
    parseDictTail (fuel + 1) cs =
      (if d = '\x7d' then some ([], rest)
      else if d = ',' then do
        let (kv, rest2) ← parsePairX fuel rest
        let (kvs, rest3) ← parseDictTail fuel rest2
        pure (kv :: kvs, rest3)
      else Option.none) := by
  rw [parseDictTail.eq_def]
  simp only [h]

theorem needV_pos (v : PyVal) : 1 ≤ needV v := by
  cases v with
  | none => simp [needV]
  | bool b => simp [needV]
  | int n => simp [needV]
  | str s => simp [needV]
  | list xs => cases xs <;> (simp only [needV]; omega)
  | dict kvs => cases kvs <;> (simp only [needV]; omega)

theorem digitCh_ne (d : Nat) (h : d < 10) (c : Char) (hc : c.isDigit = false) :
    digitCh d ≠ c := by
  intro he
  rw [← he] at hc
  rw [digitCh_isDigit d h] at hc
  cases hc

theorem digitCh_not_ws (d : Nat) (h : d < 10) : isWsChar (digitCh d) = false := by
  interval_cases d <;> decide

theorem natChars_head (n : Nat) : ∃ d t, d < 10 ∧ natChars n = digitCh d :: t := by
  by_cases h0 : n = 0
  · subst h0
    exact ⟨0, [], by norm_num, by decide⟩
  · obtain ⟨d, ds, hds⟩ : ∃ d ds, (Nat.digits 10 n).reverse = d :: ds := by
      cases hrev : (Nat.digits 10 n).reverse with
      | nil =>
          exact absurd (by simpa using congrArg List.reverse hrev)
            (Nat.digits_ne_nil_iff_ne_zero.mpr h0)
      | cons d ds => exact ⟨d, ds, rfl⟩
    have hd : d < 10 := by
      have hm : d ∈ Nat.digits 10 n := by
        rw [← List.mem_reverse, hds]
        exact List.mem_cons_self _ _
      exact Nat.digits_lt_base (by norm_num) hm
    exact ⟨d, ds.map digitCh, hd, by simp [natChars, h0, hds]⟩

theorem dumpVal_head (ind lvl : Nat) (v : PyVal) (M : List Char) :
    ∃ c t, dumpVal ind lvl v ++ M = c :: t ∧ isWsChar c = false ∧ c ≠ ']' ∧ c ≠ '\x7d' := by
  cases v with
  | none =>
      exact ⟨'n', 'u' :: 'l' :: 'l' :: M, by simp [dumpVal], by decide, by decide, by decide⟩
  | bool b =>
      cases b with
      | false =>
          exact ⟨'f', 'a' :: 'l' :: 's' :: 'e' :: M, by simp [dumpVal],
            by decide, by decide, by decide⟩
      | true =>
          exact ⟨'t', 'r' :: 'u' :: 'e' :: M, by simp [dumpVal], by decide, by decide, by decide⟩
  | int n =>
      cases n with
      | ofNat m =>
          obtain ⟨d, t', hd, hnat⟩ := natChars_head m
          exact ⟨digitCh d, t' ++ M, by simp [dumpVal, intChars, hnat],
            digitCh_not_ws d hd, digitCh_ne d hd ']' (by decide),
            digitCh_ne d hd '\x7d' (by decide)⟩
      | negSucc m =>
          exact ⟨'-', natChars (m + 1) ++ M, by simp [dumpVal, intChars],
            by decide, by decide, by decide⟩
  | str s =>
      exact ⟨'"', s.data.flatMap jsonEscChar ++ ('"' :: M), by simp [dumpVal, jsonStrLit],
        by decide, by decide, by decide⟩
  | list xs =>
      cases xs with
      | nil => exact ⟨'[', ']' :: M, by simp [dumpVal], by decide, by decide, by decide⟩
      | cons x xs =>
          exact ⟨'[', '\n' :: (indentChars ind (lvl + 1) ++ (dumpVal ind (lvl + 1) x ++
            (dumpItems ind (lvl + 1) xs ++ ('\n' :: (indentChars ind lvl ++ (']' :: M)))))),
            by simp [dumpVal, List.append_assoc], by decide, by decide, by decide⟩
  | dict kvs =>
      cases kvs with
      | nil =>
          exact ⟨'\x7b', '\x7d' :: M, by simp [dumpVal], by decide, by decide, by decide⟩
      | cons kv kvs =>
          exact ⟨'\x7b', '\n' :: (indentChars ind (lvl + 1) ++ (dumpPair ind (lvl + 1) kv ++
            (dumpPairs ind (lvl + 1) kvs ++
              ('\n' :: (indentChars ind lvl ++ ('\x7d' :: M)))))),
            by simp [dumpVal, List.append_assoc], by decide, by decide, by decide⟩

theorem skipWs_dump (ind lvl : Nat) (v : PyVal) (M : List Char) :
    skipWs (dumpVal ind lvl v ++ M) = dumpVal ind lvl v ++ M := by
  obtain ⟨c, t, heq, hws, _, _⟩ := dumpVal_head ind lvl v M
  rw [heq, skipWs_cons_not c t hws]

theorem notDigitStart_items (ind lvl lvl2 : Nat) (xs : List PyVal) (r : List Char) :
    notDigitStart (dumpItems ind lvl xs ++ ('\n' :: (indentChars ind lvl2 ++ (']' :: r)))) := by
  cases xs with
  | nil => exact (by decide : ('\n' : Char).isDigit = false)
  | cons x xs =>
      simp only [dumpItems, List.cons_append, List.append_assoc]
      exact (by decide : (',' : Char).isDigit = false)

theorem notDigitStart_pairs (ind lvl lvl2 : Nat) (kvs : List (String × PyVal)) (r : List Char) :
    notDigitStart (dumpPairs ind lvl kvs ++ ('\n' :: (indentChars ind lvl2 ++ ('\x7d' :: r)))) := by
  cases kvs with
  | nil => exact (by decide : ('\n' : Char).isDigit = false)
  | cons kv kvs =>
      simp only [dumpPairs, List.cons_append, List.append_assoc]
      exact (by decide : (',' : Char).isDigit = false)

mutual
theorem parseVal_dump : ∀ (v : PyVal) (ind lvl fuel : Nat) (rest : List Char),
    needV v ≤ fuel → notDigitStart rest →
    parseVal fuel (dumpVal ind lvl v ++ rest) = some (v, rest)
  | .none, ind, lvl, fuel, rest, hf, hr => by
      cases fuel with
      | zero =>
          simp only [needV] at hf
          omega
      | succ f =>
          have hD : dumpVal ind lvl PyVal.none ++ rest = 'n' :: 'u' :: 'l' :: 'l' :: rest := by
            simp [dumpVal]
          rw [hD, parseVal_head f _ 'n' ('u' :: 'l' :: 'l' :: rest)
            (skipWs_cons_not _ _ (by decide))]
          simp [parseLitNull]
  | .bool true, ind, lvl, fuel, rest, hf, hr => by
      cases fuel with
      | zero =>
          simp only [needV] at hf
          omega
      | succ f =>
          have hD : dumpVal ind lvl (.bool true) ++ rest = 't' :: 'r' :: 'u' :: 'e' :: rest := by
            simp [dumpVal]
          rw [hD, parseVal_head f _ 't' ('r' :: 'u' :: 'e' :: rest)
            (skipWs_cons_not _ _ (by decide))]
          simp [parseLitTrue]
  | .bool false, ind, lvl, fuel, rest, hf, hr => by
      cases fuel with
      | zero =>
          simp only [needV] at hf
          omega
      | succ f =>
          have hD : dumpVal ind lvl (.bool false) ++ rest =
              'f' :: 'a' :: 'l' :: 's' :: 'e' :: rest := by
            simp [dumpVal]
          rw [hD, parseVal_head f _ 'f' ('a' :: 'l' :: 's' :: 'e' :: rest)
            (skipWs_cons_not _ _ (by decide))]
          simp [parseLitFalse]
  | .int (Int.ofNat m), ind, lvl, fuel, rest, hf, hr => by
      cases fuel with
      | zero =>
          simp only [needV] at hf
          omega
      | succ f =>
          obtain ⟨d, t', hd, hnat⟩ := natChars_head m
          have hD : dumpVal ind lvl (.int (Int.ofNat m)) ++ rest = digitCh d :: (t' ++ rest) := by
            simp [dumpVal, intChars, hnat]
          rw [hD, parseVal_head f _ (digitCh d) (t' ++ rest)
            (skipWs_cons_not _ _ (digitCh_not_ws d hd))]
          rw [if_neg (digitCh_ne d hd 'n' (by decide)), if_neg (digitCh_ne d hd 't' (by decide)),
            if_neg (digitCh_ne d hd 'f' (by decide)), if_neg (digitCh_ne d hd '"' (by decide)),
            if_neg (digitCh_ne d hd '[' (by decide)),
            if_neg (digitCh_ne d hd '\x7b' (by decide)),
            if_neg (digitCh_ne d hd '-' (by decide)), if_pos (digitCh_isDigit d hd)]
          unfold parsePosNum
          rw [show digitCh d :: (t' ++ rest) = natChars m ++ rest by rw [hnat]; rfl]
          rw [parseNum_natChars m rest hr]
          rfl
  | .int (Int.negSucc m), ind, lvl, fuel, rest, hf, hr => by
      cases fuel with
      | zero =>
          simp only [needV] at hf
          omega
      | succ f =>
          have hD : dumpVal ind lvl (.int (Int.negSucc m)) ++ rest =
              '-' :: (natChars (m + 1) ++ rest) := by
            simp [dumpVal, intChars]
          rw [hD, parseVal_head f _ '-' (natChars (m + 1) ++ rest)
            (skipWs_cons_not _ _ (by decide))]
          show parseNegNum (natChars (m + 1) ++ rest) = some (.int (Int.negSucc m), rest)
          unfold parseNegNum
          rw [parseNum_natChars (m + 1) rest hr]
          show some (PyVal.int (-((m + 1 : Nat) : Int)), rest) = _
          have hneg : (-((m + 1 : Nat) : Int)) = Int.negSucc m := by
            rw [Int.negSucc_eq]
            push_cast
            ring
          rw [hneg]
  | .str s, ind, lvl, fuel, rest, hf, hr => by
      cases fuel with
      | zero =>
          simp only [needV] at hf
          omega
      | succ f =>
          have hD : dumpVal ind lvl (.str s) ++ rest =
              '"' :: (s.data.flatMap jsonEscChar ++ ('"' :: rest)) := by
            simp [dumpVal, jsonStrLit]
          rw [hD, parseVal_head f _ '"' (s.data.flatMap jsonEscChar ++ ('"' :: rest))
            (skipWs_cons_not _ _ (by decide))]
          show (parseStrBody (s.data.flatMap jsonEscChar ++ ('"' :: rest))).map
            (fun p => (PyVal.str (String.mk p.1), p.2)) = some (.str s, rest)
          rw [parseStrBody_flat]
          rfl
  | .list [], ind, lvl, fuel, rest, hf, hr => by
      cases fuel with
      | zero =>
          simp only [needV] at hf
          omega
      | succ f =>
          have hD : dumpVal ind lvl (.list []) ++ rest = '[' :: (']' :: rest) := by
            simp [dumpVal]
          rw [hD, parseVal_head f _ '[' (']' :: rest) (skipWs_cons_not _ _ (by decide))]
          show parseListBody f (']' :: rest) = some (.list [], rest)
          rw [parseListBody_head f _ ']' rest (skipWs_cons_not _ _ (by decide))]
          simp
  | .list (x :: xs), ind, lvl, fuel, rest, hf, hr => by
      simp only [needV] at hf
      cases fuel with
      | zero => omega
      | succ f =>
          have hD : dumpVal ind lvl (.list (x :: xs)) ++ rest =
              '[' :: ('\n' :: (indentChars ind (lvl + 1) ++ (dumpVal ind (lvl + 1) x ++
                (dumpItems ind (lvl + 1) xs ++
                  ('\n' :: (indentChars ind lvl ++ (']' :: rest))))))) := by
            simp [dumpVal, List.append_assoc]
          rw [hD, parseVal_head f _ '[' _ (skipWs_cons_not _ _ (by decide))]
          show parseListBody f ('\n' :: (indentChars ind (lvl + 1) ++ (dumpVal ind (lvl + 1) x ++
            (dumpItems ind (lvl + 1) xs ++ ('\n' :: (indentChars ind lvl ++ (']' :: rest))))))) =
            some (.list (x :: xs), rest)
          have hsk : skipWs ('\n' :: (indentChars ind (lvl + 1) ++ (dumpVal ind (lvl + 1) x ++
              (dumpItems ind (lvl + 1) xs ++ ('\n' :: (indentChars ind lvl ++ (']' :: rest))))))) =
              dumpVal ind (lvl + 1) x ++
                (dumpItems ind (lvl + 1) xs ++
                  ('\n' :: (indentChars ind lvl ++ (']' :: rest)))) := by
            rw [skipWs_cons_ws _ _ (by decide), skipWs_indent, skipWs_dump]
          obtain ⟨c, t, heq, hws, hne1, _⟩ := dumpVal_head ind (lvl + 1) x
            (dumpItems ind (lvl + 1) xs ++ ('\n' :: (indentChars ind lvl ++ (']' :: rest))))
          rw [parseListBody_head f _ c t (by rw [hsk, heq])]
          rw [if_neg hne1, ← heq]
          have hx : parseVal f (dumpVal ind (lvl + 1) x ++
              (dumpItems ind (lvl + 1) xs ++
                ('\n' :: (indentChars ind lvl ++ (']' :: rest))))) =
              some (x, dumpItems ind (lvl + 1) xs ++
                ('\n' :: (indentChars ind lvl ++ (']' :: rest)))) :=
            parseVal_dump x ind (lvl + 1) f _ (by omega)
              (notDigitStart_items ind (lvl + 1) lvl xs rest)
          rw [hx]
          have ht : parseListTail f (dumpItems ind (lvl + 1) xs ++
              ('\n' :: (indentChars ind lvl ++ (']' :: rest)))) = some (xs, rest) :=
            parseListTail_dump xs ind (lvl + 1) lvl f rest (by omega) hr
          simp [ht]
  | .dict [], ind, lvl, fuel, rest, hf, hr => by
      cases fuel with
      | zero =>
          simp only [needV] at hf
          omega
      | succ f =>
          have hD : dumpVal ind lvl (.dict []) ++ rest = '\x7b' :: ('\x7d' :: rest) := by
            simp [dumpVal]
          rw [hD, parseVal_head f _ '\x7b' ('\x7d' :: rest) (skipWs_cons_not _ _ (by decide))]
          show parseDictBody f ('\x7d' :: rest) = some (.dict [], rest)
          rw [parseDictBody_head f _ '\x7d' rest (skipWs_cons_not _ _ (by decide))]
          simp
  | .dict ((k, v) :: kvs), ind, lvl, fuel, rest, hf, hr => by
      simp only [needV] at hf
      cases fuel with
      | zero => omega
      | succ f =>
          have hD : dumpVal ind lvl (.dict ((k, v) :: kvs)) ++ rest =
              '\x7b' :: ('\n' :: (indentChars ind (lvl + 1) ++ (dumpPair ind (lvl + 1) (k, v) ++
                (dumpPairs ind (lvl + 1) kvs ++
                  ('\n' :: (indentChars ind lvl ++ ('\x7d' :: rest))))))) := by
            simp [dumpVal, List.append_assoc]
          rw [hD, parseVal_head f _ '\x7b' _ (skipWs_cons_not _ _ (by decide))]
          show parseDictBody f ('\n' :: (indentChars ind (lvl + 1) ++
            (dumpPair ind (lvl + 1) (k, v) ++ (dumpPairs ind (lvl + 1) kvs ++
              ('\n' :: (indentChars ind lvl ++ ('\x7d' :: rest))))))) =
            some (.dict ((k, v) :: kvs), rest)
          have hsk : skipWs ('\n' :: (indentChars ind (lvl + 1) ++
              (dumpPair ind (lvl + 1) (k, v) ++ (dumpPairs ind (lvl + 1) kvs ++
                ('\n' :: (indentChars ind lvl ++ ('\x7d' :: rest))))))) =
              dumpPair ind (lvl + 1) (k, v) ++ (dumpPairs ind (lvl + 1) kvs ++
                ('\n' :: (indentChars ind lvl ++ ('\x7d' :: rest)))) := by
            rw [skipWs_cons_ws _ _ (by decide), skipWs_indent]
            have hp : dumpPair ind (lvl + 1) (k, v) ++ (dumpPairs ind (lvl + 1) kvs ++
                ('\n' :: (indentChars ind lvl ++ ('\x7d' :: rest)))) =
                '"' :: (k.data.flatMap jsonEscChar ++ ('"' :: (':' :: (' ' ::
                  (dumpVal ind (lvl + 1) v ++ (dumpPairs ind (lvl + 1) kvs ++
                    ('\n' :: (indentChars ind lvl ++ ('\x7d' :: rest))))))))) := by
              simp [dumpPair, jsonStrLit, List.append_assoc]
            rw [hp, skipWs_cons_not _ _ (by decide)]
          have hp : dumpPair ind (lvl + 1) (k, v) ++ (dumpPairs ind (lvl + 1) kvs ++
              ('\n' :: (indentChars ind lvl ++ ('\x7d' :: rest)))) =
              '"' :: (k.data.flatMap jsonEscChar ++ ('"' :: (':' :: (' ' ::
                (dumpVal ind (lvl + 1) v ++ (dumpPairs ind (lvl + 1) kvs ++
                  ('\n' :: (indentChars ind lvl ++ ('\x7d' :: rest))))))))) := by
            simp [dumpPair, jsonStrLit, List.append_assoc]
          rw [parseDictBody_head f _ '"' _ (by rw [hsk, hp])]
          rw [if_neg (by decide : ¬ ('"' : Char) = '\x7d'), ← hp]
          have hkv : parsePairX f (dumpPair ind (lvl + 1) (k, v) ++
              (dumpPairs ind (lvl + 1) kvs ++
                ('\n' :: (indentChars ind lvl ++ ('\x7d' :: rest))))) =
              some ((k, v), dumpPairs ind (lvl + 1) kvs ++
                ('\n' :: (indentChars ind lvl ++ ('\x7d' :: rest)))) :=
            parsePairX_dump (k, v) ind (lvl + 1) f _ (by show 1 + needV v ≤ f; omega)
              (notDigitStart_pairs ind (lvl + 1) lvl kvs rest)
          rw [hkv]
          have ht : parseDictTail f (dumpPairs ind (lvl + 1) kvs ++
              ('\n' :: (indentChars ind lvl ++ ('\x7d' :: rest)))) = some (kvs, rest) :=
            parseDictTail_dump kvs ind (lvl + 1) lvl f rest (by omega) hr
          simp [ht]
termination_by v _ _ _ _ => sizeOf v

theorem parseListTail_dump : ∀ (xs : List PyVal) (ind lvl lvl2 fuel : Nat) (rest : List Char),
    needTail xs ≤ fuel → notDigitStart rest →
    parseListTail fuel (dumpItems ind lvl xs ++ ('\n' :: (indentChars ind lvl2 ++ (']' :: rest)))) =
      some (xs, rest)
  | [], ind, lvl, lvl2, fuel, rest, hf, hr => by
      cases fuel with
      | zero =>
          simp only [needTail] at hf
          omega
      | succ f =>
          have hD : dumpItems ind lvl ([] : List PyVal) ++
              ('\n' :: (indentChars ind lvl2 ++ (']' :: rest))) =
              '\n' :: (indentChars ind lvl2 ++ (']' :: rest)) := by
            simp [dumpItems]
          rw [hD, parseListTail_head f _ ']' rest
            (by rw [skipWs_cons_ws _ _ (by decide), skipWs_indent,
              skipWs_cons_not _ _ (by decide)])]
          simp
  | x :: xs, ind, lvl, lvl2, fuel, rest, hf, hr => by
      simp only [needTail] at hf
      cases fuel with
      | zero => omega
      | succ f =>
          have hD : dumpItems ind lvl (x :: xs) ++
              ('\n' :: (indentChars ind lvl2 ++ (']' :: rest))) =
              ',' :: ('\n' :: (indentChars ind lvl ++ (dumpVal ind lvl x ++
                (dumpItems ind lvl xs ++ ('\n' :: (indentChars ind lvl2 ++ (']' :: rest))))))) := by
            simp [dumpItems, List.append_assoc]
          rw [hD, parseListTail_head f _ ',' _ (skipWs_cons_not _ _ (by decide))]
          rw [if_neg (by decide : ¬ (',' : Char) = ']'), if_pos rfl]
          have hx : parseVal f ('\n' :: (indentChars ind lvl ++ (dumpVal ind lvl x ++
              (dumpItems ind lvl xs ++ ('\n' :: (indentChars ind lvl2 ++ (']' :: rest))))))) =
              some (x, dumpItems ind lvl xs ++
                ('\n' :: (indentChars ind lvl2 ++ (']' :: rest)))) := by
            rw [parseVal_congr f _ (dumpVal ind lvl x ++ (dumpItems ind lvl xs ++
              ('\n' :: (indentChars ind lvl2 ++ (']' :: rest)))))
              (by rw [skipWs_cons_ws _ _ (by decide), skipWs_indent])]
            exact parseVal_dump x ind lvl f _ (by omega)
              (notDigitStart_items ind lvl lvl2 xs rest)
          rw [hx]
          have ht : parseListTail f (dumpItems ind lvl xs ++
              ('\n' :: (indentChars ind lvl2 ++ (']' :: rest)))) = some (xs, rest) :=
            parseListTail_dump xs ind lvl lvl2 f rest (by omega) hr
          simp [ht]
termination_by xs _ _ _ _ _ => sizeOf xs

theorem parsePairX_dump : ∀ (kv : String × PyVal) (ind lvl fuel : Nat) (rest : List Char),
    1 + needV kv.2 ≤ fuel → notDigitStart rest →
    parsePairX fuel (dumpPair ind lvl kv ++ rest) = some (kv, rest)
  | (k, v), ind, lvl, fuel, rest, hf, hr => by
      simp only at hf
      cases fuel with
      | zero => omega
      | succ f =>
          have hD : dumpPair ind lvl (k, v) ++ rest =
              '"' :: (k.data.flatMap jsonEscChar ++
                ('"' :: (':' :: (' ' :: (dumpVal ind lvl v ++ rest))))) := by
            simp [dumpPair, jsonStrLit, List.append_assoc]
          rw [hD, parsePairX_head f _ '"' _ (skipWs_cons_not _ _ (by decide))]
          rw [if_pos rfl]
          rw [parseStrBody_flat k.data (':' :: (' ' :: (dumpVal ind lvl v ++ rest)))]
          show parsePairColon f k.data (':' :: (' ' :: (dumpVal ind lvl v ++ rest))) =
            some ((k, v), rest)
          rw [parsePairColon_head f _ _ ':' (' ' :: (dumpVal ind lvl v ++ rest))
            (skipWs_cons_not _ _ (by decide))]
          rw [if_pos rfl]
          have hv : parseVal f (' ' :: (dumpVal ind lvl v ++ rest)) = some (v, rest) := by
            rw [parseVal_congr f _ (dumpVal ind lvl v ++ rest)
              (skipWs_cons_ws _ _ (by decide))]
            exact parseVal_dump v ind lvl f rest (by omega) hr
          rw [hv]
          rfl
termination_by kv _ _ _ _ => sizeOf kv

theorem parseDictTail_dump :
    ∀ (kvs : List (String × PyVal)) (ind lvl lvl2 fuel : Nat) (rest : List Char),
    needPairs kvs ≤ fuel → notDigitStart rest →
    parseDictTail fuel
      (dumpPairs ind lvl kvs ++ ('\n' :: (indentChars ind lvl2 ++ ('\x7d' :: rest)))) =
      some (kvs, rest)
  | [], ind, lvl, lvl2, fuel, rest, hf, hr => by
      cases fuel with
      | zero =>
          simp only [needPairs] at hf
          omega
      | succ f =>
          have hD : dumpPairs ind lvl ([] : List (String × PyVal)) ++
              ('\n' :: (indentChars ind lvl2 ++ ('\x7d' :: rest))) =
              '\n' :: (indentChars ind lvl2 ++ ('\x7d' :: rest)) := by
            simp [dumpPairs]
          rw [hD, parseDictTail_head f _ '\x7d' rest
            (by rw [skipWs_cons_ws _ _ (by decide), skipWs_indent,
              skipWs_cons_not _ _ (by decide)])]
          simp
  | kv :: kvs, ind, lvl, lvl2, fuel, rest, hf, hr => by
      simp only [needPairs] at hf
      cases fuel with
      | zero => omega
      | succ f =>
          have hD : dumpPairs ind lvl (kv :: kvs) ++
              ('\n' :: (indentChars ind lvl2 ++ ('\x7d' :: rest))) =
              ',' :: ('\n' :: (indentChars ind lvl ++ (dumpPair ind lvl kv ++
                (dumpPairs ind lvl kvs ++
                  ('\n' :: (indentChars ind lvl2 ++ ('\x7d' :: rest))))))) := by
            simp [dumpPairs, List.append_assoc]
          rw [hD, parseDictTail_head f _ ',' _ (skipWs_cons_not _ _ (by decide))]
          rw [if_neg (by decide : ¬ (',' : Char) = '\x7d'), if_pos rfl]
          have hkv : parsePairX f ('\n' :: (indentChars ind lvl ++ (dumpPair ind lvl kv ++
              (dumpPairs ind lvl kvs ++
                ('\n' :: (indentChars ind lvl2 ++ ('\x7d' :: rest))))))) =
              some (kv, dumpPairs ind lvl kvs ++
                ('\n' :: (indentChars ind lvl2 ++ ('\x7d' :: rest)))) := by
            rw [parsePairX_congr f _ (dumpPair ind lvl kv ++ (dumpPairs ind lvl kvs ++
              ('\n' :: (indentChars ind lvl2 ++ ('\x7d' :: rest)))))
              (by rw [skipWs_cons_ws _ _ (by decide), skipWs_indent])]
            exact parsePairX_dump kv ind lvl f _ (by omega)
              (notDigitStart_pairs ind lvl lvl2 kvs rest)
          rw [hkv]
          have ht : parseDictTail f (dumpPairs ind lvl kvs ++
              ('\n' :: (indentChars ind lvl2 ++ ('\x7d' :: rest)))) = some (kvs, rest) :=
            parseDictTail_dump kvs ind lvl lvl2 f rest (by omega) hr
          simp [ht]
termination_by kvs _ _ _ _ _ => sizeOf kvs
end

mutual
theorem needV_le_len : ∀ (v : PyVal) (ind lvl : Nat), needV v ≤ (dumpVal ind lvl v).length
  | .none, ind, lvl => by simp [dumpVal, needV]
  | .bool true, ind, lvl => by simp [dumpVal, needV]
  | .bool false, ind, lvl => by simp [dumpVal, needV]
  | .int n, ind, lvl => by
      cases n with
      | ofNat m =>
          obtain ⟨d, t', _, hnat⟩ := natChars_head m
          simp [dumpVal, intChars, hnat, needV]
      | negSucc m => simp [dumpVal, intChars, needV]
  | .str s, ind, lvl => by simp [dumpVal, jsonStrLit, needV]
  | .list [], ind, lvl => by simp [dumpVal, needV]
  | .list (x :: xs), ind, lvl => by
      have h1 := needV_le_len x ind (lvl + 1)
      have h2 := needTail_le_len xs ind (lvl + 1)
      simp only [dumpVal, needV, List.length_cons, List.length_append, indentChars,
        List.length_replicate, List.length_singleton]
      omega
  | .dict [], ind, lvl => by simp [dumpVal, needV]
  | .dict (kv :: kvs), ind, lvl => by
      have h1 := needPair_le_len kv ind (lvl + 1)
      have h2 := needPairs_le_len kvs ind (lvl + 1)
      simp only [dumpVal, needV, List.length_cons, List.length_append, indentChars,
        List.length_replicate, List.length_singleton]
      omega
termination_by v _ _ => sizeOf v

theorem needTail_le_len : ∀ (xs : List PyVal) (ind lvl : Nat),
    needTail xs ≤ (dumpItems ind lvl xs).length + 1
  | [], ind, lvl => by simp [dumpItems, needTail]
  | x :: xs, ind, lvl => by
      have h1 := needV_le_len x ind lvl
      have h2 := needTail_le_len xs ind lvl
      simp only [dumpItems, needTail, List.length_cons, List.length_append, indentChars,
        List.length_replicate]
      omega
termination_by xs _ _ => sizeOf xs

theorem needPair_le_len : ∀ (kv : String × PyVal) (ind lvl : Nat),
    1 + needV kv.2 ≤ (dumpPair ind lvl kv).length
  | (k, v), ind, lvl => by
      have h1 := needV_le_len v ind lvl
      simp only [dumpPair, jsonStrLit, List.length_cons, List.length_append]
      omega
termination_by kv _ _ => sizeOf kv

theorem needPairs_le_len : ∀ (kvs : List (String × PyVal)) (ind lvl : Nat),
    needPairs kvs ≤ (dumpPairs ind lvl kvs).length + 1
  | [], ind, lvl => by simp [dumpPairs, needPairs]
  | kv :: kvs, ind, lvl => by
      have h1 := needPair_le_len kv ind lvl
      have h2 := needPairs_le_len kvs ind lvl
      simp only [dumpPairs, needPairs, List.length_cons, List.length_append, indentChars,
        List.length_replicate]
      omega
termination_by kvs _ _ => sizeOf kvs
end

/-- Parsing inverts serialization: `json.loads (json.dumps v) = v` for
every representable value, at any indent width. -/
theorem jsonDumps_roundtrip (indent : Nat) (v : PyVal) :
    jsonLoads (jsonDumps indent v) = some v := by
  have hp : parseVal (dumpVal indent 0 v).length (dumpVal indent 0 v ++ []) = some (v, []) :=
    parseVal_dump v indent 0 _ [] (needV_le_len v indent 0) trivial
  rw [List.append_nil] at hp
  unfold jsonLoads jsonDumps
  simp [hp, skipWs]

/-- C6: Saving with `violations_only=False` writes the raw result
serialized by `json.dumps` with 4-space indentation, and parsing the
written text back as JSON yields a structure equal to the original raw
result. -/
theorem save_to_file_roundtrip (r : PyDict) :
    save_to_file r false = .ok (jsonDumps 4 (.dict r)) ∧
    jsonLoads (jsonDumps 4 (.dict r)) = some (.dict r) :=
  ⟨rfl, jsonDumps_roundtrip 4 (.dict r)⟩

theorem hasKey_cons (kv : String × PyVal) (r : PyDict) (k : String) :
    hasKey (kv :: r) k = ((kv.1 == k) || hasKey r k) := by
  simp [hasKey]

theorem hasKey_filter_ne (r : PyDict) (k k' : String) (hne : k ≠ k') :
    hasKey (r.filter (fun kv => !(kv.1 == k'))) k = hasKey r k := by
  induction r with
  | nil => rfl
  | cons kv r ih =>
      by_cases h : kv.1 = k'
      · have hb : (kv.1 == k') = true := by simp [h]
        have hk : (kv.1 == k) = false := by
          simp [h]
          exact fun hh => hne hh.symm
        rw [List.filter_cons]
        simp only [hb, Bool.not_true, Bool.false_eq_true, if_false]
        rw [ih, hasKey_cons]
        simp [hk]
      · have hb : (kv.1 == k') = false := by simp [h]
        rw [List.filter_cons]
        simp only [hb, Bool.not_false, if_true]
        rw [hasKey_cons, hasKey_cons, ih]

theorem map_fst_filter (p : String → Bool) (r : PyDict) :
    (r.filter (fun kv => p kv.1)).map Prod.fst = (r.map Prod.fst).filter p := by
  induction r with
  | nil => rfl
  | cons kv r ih => by_cases h : p kv.1 <;> simp [List.filter_cons, h, ih]

theorem map_fst_filter_ne (k' : String) (r : PyDict) :
    (r.filter (fun kv => !(kv.1 == k'))).map Prod.fst =
      (r.map Prod.fst).filter (fun s => !(s == k')) :=
  map_fst_filter (fun s => !(s == k')) r

/-- C1: With `violations_only=True`, `save_to_file` raises `KeyError` when
any of `inapplicable`, `incomplete`, `passes` is absent from the raw
result; when all three are present, the written JSON's top-level keys are
exactly the original keys minus those three, with the remaining entries
unmodified. -/
theorem save_to_file_violations_only (r : PyDict) :
    (¬ (hasKey r "inapplicable" = true ∧ hasKey r "incomplete" = true ∧
        hasKey r "passes" = true) →
      ∃ k, (k = "inapplicable" ∨ k = "incomplete" ∨ k = "passes") ∧
        save_to_file r true = .error (.keyError k)) ∧
    ((hasKey r "inapplicable" = true ∧ hasKey r "incomplete" = true ∧
        hasKey r "passes" = true) →
      save_to_file r true = .ok (jsonDumps 4 (.dict
        (((r.filter (fun kv => !(kv.1 == "inapplicable"))).filter
          (fun kv => !(kv.1 == "incomplete"))).filter (fun kv => !(kv.1 == "passes"))))) ∧
      jsonLoads (jsonDumps 4 (.dict
        (((r.filter (fun kv => !(kv.1 == "inapplicable"))).filter
          (fun kv => !(kv.1 == "incomplete"))).filter (fun kv => !(kv.1 == "passes"))))) =
        some (.dict
          (((r.filter (fun kv => !(kv.1 == "inapplicable"))).filter
            (fun kv => !(kv.1 == "incomplete"))).filter (fun kv => !(kv.1 == "passes")))) ∧
      (((r.filter (fun kv => !(kv.1 == "inapplicable"))).filter
        (fun kv => !(kv.1 == "incomplete"))).filter
          (fun kv => !(kv.1 == "passes"))).map Prod.fst =
        (((r.map Prod.fst).filter (fun s => !(s == "inapplicable"))).filter
          (fun s => !(s == "incomplete"))).filter (fun s => !(s == "passes"))) := by
  constructor
  · intro hmiss
    by_cases h1 : hasKey r "inapplicable" = true
    case neg =>
      rw [Bool.not_eq_true] at h1
      exact ⟨"inapplicable", Or.inl rfl,
        by simp [-List.filter_filter, save_to_file, delKey, h1,
          except_bind_ok, except_bind_error, except_pure]⟩
    case pos =>
      by_cases h2 : hasKey r "incomplete" = true
      case neg =>
        rw [Bool.not_eq_true] at h2
        have h2' : hasKey (r.filter (fun kv => !(kv.1 == "inapplicable"))) "incomplete" =
            false := by
          rw [hasKey_filter_ne r "incomplete" "inapplicable" (by decide)]
          exact h2
        exact ⟨"incomplete", Or.inr (Or.inl rfl),
          by simp [-List.filter_filter, save_to_file, delKey, h1, h2',
            except_bind_ok, except_bind_error, except_pure]⟩
      case pos =>
        by_cases h3 : hasKey r "passes" = true
        case pos => exact absurd ⟨h1, h2, h3⟩ hmiss
        case neg =>
          rw [Bool.not_eq_true] at h3
          have h2' : hasKey (r.filter (fun kv => !(kv.1 == "inapplicable"))) "incomplete" =
              true := by
            rw [hasKey_filter_ne r "incomplete" "inapplicable" (by decide)]
            exact h2
          have h3' : hasKey ((r.filter (fun kv => !(kv.1 == "inapplicable"))).filter
              (fun kv => !(kv.1 == "incomplete"))) "passes" = false := by
            rw [hasKey_filter_ne _ "passes" "incomplete" (by decide),
              hasKey_filter_ne r "passes" "inapplicable" (by decide)]
            exact h3
          exact ⟨"passes", Or.inr (Or.inr rfl),
            by simp [-List.filter_filter, save_to_file, delKey, h1, h2', h3',
              except_bind_ok, except_bind_error, except_pure]⟩
  · rintro ⟨h1, h2, h3⟩
    have h2' : hasKey (r.filter (fun kv => !(kv.1 == "inapplicable"))) "incomplete" = true := by
      rw [hasKey_filter_ne r "incomplete" "inapplicable" (by decide)]
      exact h2
    have h3' : hasKey ((r.filter (fun kv => !(kv.1 == "inapplicable"))).filter
        (fun kv => !(kv.1 == "incomplete"))) "passes" = true := by
      rw [hasKey_filter_ne _ "passes" "incomplete" (by decide),
        hasKey_filter_ne r "passes" "inapplicable" (by decide)]
      exact h3
    refine ⟨?_, jsonDumps_roundtrip 4 _, ?_⟩
    · simp [-List.filter_filter, save_to_file, delKey, h1, h2', h3',
        except_bind_ok, except_bind_error, except_pure]
    · simp only [map_fst_filter_ne]

/-- Witness for C1: a complete raw result with one extra key. -/
theorem save_to_file_violations_only_witness :
    (hasKey [("violations", PyVal.list []), ("inapplicable", PyVal.list []),
        ("incomplete", PyVal.list []), ("passes", PyVal.list []), ("extra", PyVal.int 1)]
        "inapplicable" = true ∧
      hasKey [("violations", PyVal.list []), ("inapplicable", PyVal.list []),
        ("incomplete", PyVal.list []), ("passes", PyVal.list []), ("extra", PyVal.int 1)]
        "incomplete" = true ∧
      hasKey [("violations", PyVal.list []), ("inapplicable", PyVal.list []),
        ("incomplete", PyVal.list []), ("passes", PyVal.list []), ("extra", PyVal.int 1)]
        "passes" = true) ∧
    save_to_file [("violations", PyVal.list []), ("inapplicable", PyVal.list []),
        ("incomplete", PyVal.list []), ("passes", PyVal.list []), ("extra", PyVal.int 1)] true =
      .ok (jsonDumps 4 (.dict
        ((([("violations", PyVal.list []), ("inapplicable", PyVal.list []),
          ("incomplete", PyVal.list []), ("passes", PyVal.list []),
          ("extra", PyVal.int 1)].filter (fun kv => !(kv.1 == "inapplicable"))).filter
            (fun kv => !(kv.1 == "incomplete"))).filter (fun kv => !(kv.1 == "passes"))))) :=
  ⟨⟨rfl, rfl, rfl⟩,
    ((save_to_file_violations_only [("violations", PyVal.list []),
      ("inapplicable", PyVal.list []), ("incomplete", PyVal.list []),
      ("passes", PyVal.list []), ("extra", PyVal.int 1)]).2 ⟨rfl, rfl, rfl⟩).1⟩

end AxePlaywright
